import Mathlib

/-!
Verification development for the enrichment-cache / AI-response layer of a
study-abroad counselling backend (Node.js + Supabase).  JavaScript values
are modelled by the inductive `Json` below; JS numbers are modelled as exact
rationals, timestamps as integers (milliseconds), and database tables as
lists of rows.  Each definition is a direct transcription of the
corresponding JavaScript function from the service modules
(cacheService, aiService, discoveryAnalysis, universitySearch,
universityEnrichment).
-/

/-- Model of a JavaScript (JSON-like) runtime value.  Numbers are exact
rationals, `null` covers both `null` and `undefined` where a present value
is required; absent object properties are modelled by `Option` at use
sites. -/
inductive Json where
  | null
  | bool (b : Bool)
  | num (q : ℚ)
  | str (s : String)
  | arr (xs : List Json)
  | obj (kvs : List (String × Json))

mutual

/-- Structural boolean equality on `Json` (nested inductive, so `deriving`
is unavailable). -/
def Json.beq : Json → Json → Bool
  | .null, .null => true
  | .bool a, .bool b => a == b
  | .num a, .num b => a == b
  | .str a, .str b => a == b
  | .arr xs, .arr ys => Json.beqArr xs ys
  | .obj xs, .obj ys => Json.beqObj xs ys
  | _, _ => false

def Json.beqArr : List Json → List Json → Bool
  | [], [] => true
  | x :: xs, y :: ys => Json.beq x y && Json.beqArr xs ys
  | _, _ => false

def Json.beqObj : List (String × Json) → List (String × Json) → Bool
  | [], [] => true
  | (k1, v1) :: xs, (k2, v2) :: ys => k1 == k2 && Json.beq v1 v2 && Json.beqObj xs ys
  | _, _ => false

end

mutual

theorem Json.eq_of_beq : ∀ {a b : Json}, Json.beq a b = true → a = b
  | .null, .null, _ => rfl
  | .bool _, .bool _, h => by simp only [Json.beq, beq_iff_eq] at h; simp [h]
  | .num _, .num _, h => by simp only [Json.beq, beq_iff_eq] at h; simp [h]
  | .str _, .str _, h => by simp only [Json.beq, beq_iff_eq] at h; simp [h]
  | .arr xs, .arr ys, h => by
      simp only [Json.beq] at h
      exact congrArg Json.arr (Json.eqArr_of_beq h)
  | .obj xs, .obj ys, h => by
      simp only [Json.beq] at h
      exact congrArg Json.obj (Json.eqObj_of_beq h)
  | .null, .bool _, h => by simp [Json.beq] at h
  | .null, .num _, h => by simp [Json.beq] at h
  | .null, .str _, h => by simp [Json.beq] at h
  | .null, .arr _, h => by simp [Json.beq] at h
  | .null, .obj _, h => by simp [Json.beq] at h
  | .bool _, .null, h => by simp [Json.beq] at h
  | .bool _, .num _, h => by simp [Json.beq] at h
  | .bool _, .str _, h => by simp [Json.beq] at h
  | .bool _, .arr _, h => by simp [Json.beq] at h
  | .bool _, .obj _, h => by simp [Json.beq] at h
  | .num _, .null, h => by simp [Json.beq] at h
  | .num _, .bool _, h => by simp [Json.beq] at h
  | .num _, .str _, h => by simp [Json.beq] at h
  | .num _, .arr _, h => by simp [Json.beq] at h
  | .num _, .obj _, h => by simp [Json.beq] at h
  | .str _, .null, h => by simp [Json.beq] at h
  | .str _, .bool _, h => by simp [Json.beq] at h
  | .str _, .num _, h => by simp [Json.beq] at h
  | .str _, .arr _, h => by simp [Json.beq] at h
  | .str _, .obj _, h => by simp [Json.beq] at h
  | .arr _, .null, h => by simp [Json.beq] at h
  | .arr _, .bool _, h => by simp [Json.beq] at h
  | .arr _, .num _, h => by simp [Json.beq] at h
  | .arr _, .str _, h => by simp [Json.beq] at h
  | .arr _, .obj _, h => by simp [Json.beq] at h
  | .obj _, .null, h => by simp [Json.beq] at h
  | .obj _, .bool _, h => by simp [Json.beq] at h
  | .obj _, .num _, h => by simp [Json.beq] at h
  | .obj _, .str _, h => by simp [Json.beq] at h
  | .obj _, .arr _, h => by simp [Json.beq] at h

theorem Json.eqArr_of_beq : ∀ {xs ys : List Json}, Json.beqArr xs ys = true → xs = ys
  | [], [], _ => rfl
  | x :: xs, y :: ys, h => by
      simp only [Json.beqArr, Bool.and_eq_true] at h
      rw [Json.eq_of_beq h.1, Json.eqArr_of_beq h.2]
  | [], _ :: _, h => by simp [Json.beqArr] at h
  | _ :: _, [], h => by simp [Json.beqArr] at h

theorem Json.eqObj_of_beq :
    ∀ {xs ys : List (String × Json)}, Json.beqObj xs ys = true → xs = ys
  | [], [], _ => rfl
  | (k1, v1) :: xs, (k2, v2) :: ys, h => by
      simp only [Json.beqObj, Bool.and_eq_true, beq_iff_eq] at h
      obtain ⟨⟨hk, hv⟩, hrest⟩ := h
      rw [Json.eq_of_beq hv, Json.eqObj_of_beq hrest, hk]
  | [], _ :: _, h => by simp [Json.beqObj] at h
  | _ :: _, [], h => by simp [Json.beqObj] at h

end

mutual

theorem Json.beq_refl : ∀ (a : Json), Json.beq a a = true
  | .null => rfl
  | .bool _ => by simp [Json.beq]
  | .num _ => by simp [Json.beq]
  | .str _ => by simp [Json.beq]
  | .arr xs => by simp only [Json.beq]; exact Json.beqArr_refl xs
  | .obj xs => by simp only [Json.beq]; exact Json.beqObj_refl xs

theorem Json.beqArr_refl : ∀ (xs : List Json), Json.beqArr xs xs = true
  | [] => rfl
  | x :: xs => by
      simp only [Json.beqArr, Bool.and_eq_true]
      exact ⟨Json.beq_refl x, Json.beqArr_refl xs⟩

theorem Json.beqObj_refl : ∀ (xs : List (String × Json)), Json.beqObj xs xs = true
  | [] => rfl
  | (k, v) :: xs => by
      simp only [Json.beqObj, Bool.and_eq_true, beq_iff_eq]
      exact ⟨⟨trivial, Json.beq_refl v⟩, Json.beqObj_refl xs⟩

end

instance : DecidableEq Json := fun a b =>
  decidable_of_iff (Json.beq a b = true)
    ⟨fun h => Json.eq_of_beq h, fun h => h ▸ Json.beq_refl a⟩

/-- JavaScript truthiness of a runtime value: `null`/`undefined`, `false`,
`0`, and the empty string are falsy; every object and array is truthy. -/
def jsTruthy : Json → Bool
  | .null => false
  | .bool b => b
  | .num q => q != 0
  | .str s => s != ""
  | .arr _ => true
  | .obj _ => true

/-- Property read `j[k]`: `none` models `undefined` (absent property or
access on a primitive). -/
def Json.getField : Json → String → Option Json
  | .obj kvs, k => (kvs.find? (fun p => p.1 == k)).map (fun p => p.2)
  | _, _ => none

/-- Truthiness of the property `j[k]`, i.e. the JavaScript test `j.k`. -/
def fieldTruthy (j : Json) (k : String) : Bool :=
  match j.getField k with
  | some v => jsTruthy v
  | none => false

/-- Object spread update `{...j, k: v}`.  Key order is immaterial in this
model (all reads are by name), so the updated key is placed last.  The
spread of a non-object never occurs in the modelled code paths. -/
def Json.setField (j : Json) (k : String) (v : Json) : Json :=
  match j with
  | .obj kvs => .obj (kvs.filter (fun p => p.1 != k) ++ [(k, v)])
  | _ => .obj [(k, v)]

/-- Characters matched by the JavaScript `\s` class / trimmed by
`String.prototype.trim` (ASCII part plus NBSP and BOM, which suffice for
the texts handled here). -/
def jsWs (c : Char) : Bool :=
  c == ' ' || c == '\t' || c == '\n' || c == '\r' || c == '\x0b' || c == '\x0c' ||
    c == ' ' || c == '﻿'

/-- Model of `String.prototype.trim` on a character list. -/
def trimChars (cs : List Char) : List Char :=
  ((cs.dropWhile jsWs).reverse.dropWhile jsWs).reverse

/-- Model of `String.prototype.trim`. -/
def jsTrim (s : String) : String := String.mk (trimChars s.data)

/-- Model of `String.prototype.includes` (substring containment). -/
def jsIncludes (s pat : String) : Bool := decide (pat.data <:+: s.data)

/-- Drop one leading newline if present; helper for the `\n?` tail of the
code-fence regexes. -/
def dropNl (l : List Char) : List Char :=
  match l with
  | c :: t => if c = '\n' then t else c :: t
  | [] => []

/-- Fuel-driven model of the global regex replacement
`s.replace(tok + optional newline, '')` where `tok = t0 :: ts` is a literal
token: scan left to right, delete each non-overlapping occurrence of the
token (and, when `eatNl` is set, one following newline), continue after the
deleted occurrence.  `fuel ≥ cs.length` makes the fuel inexhaustible. -/
def stripTokF (t0 : Char) (ts : List Char) (eatNl : Bool) : ℕ → List Char → List Char
  | 0, cs => cs
  | _ + 1, [] => []
  | fuel + 1, c :: rest =>
    if (t0 :: ts).isPrefixOf (c :: rest) then
      let after := (c :: rest).drop (t0 :: ts).length
      stripTokF t0 ts eatNl fuel (if eatNl then dropNl after else after)
    else
      c :: stripTokF t0 ts eatNl fuel rest

/-- Global deletion of a token (plus optional trailing newline), with fuel
instantiated to the input length. -/
def stripTok (t0 : Char) (ts : List Char) (eatNl : Bool) (cs : List Char) : List Char :=
  stripTokF t0 ts eatNl cs.length cs

/-- Model of `.replace(backtick-fence "json" \n?, '')`
(the token is ``` followed by `json`). -/
def stripJsonFence (cs : List Char) : List Char :=
  stripTok '`' ['`', '`', 'j', 's', 'o', 'n'] true cs

/-- Model of `.replace(backtick-fence \n?, '')`. -/
def stripFence (cs : List Char) : List Char :=
  stripTok '`' ['`', '`'] true cs

/-- Variant without the `\n?` tail, used by `enrichUniversity`. -/
def stripJsonFenceNoNl (cs : List Char) : List Char :=
  stripTok '`' ['`', '`', 'j', 's', 'o', 'n'] false cs

/-- Variant without the `\n?` tail, used by `enrichUniversity`. -/
def stripFenceNoNl (cs : List Char) : List Char :=
  stripTok '`' ['`', '`'] false cs

/-- Model of the greedy regex match `/\x7b[\s\S]*\x7d/`: the substring from
the first opening brace to the last closing brace after it, when both
exist. -/
def extractObject (cs : List Char) : Option (List Char) :=
  match cs.dropWhile (fun c => c != '\x7b') with
  | [] => none
  | op :: rest =>
    match rest.reverse.findIdx? (fun c => c == '\x7d') with
    | none => none
    | some k => some (op :: rest.take (rest.length - k))

/-- Model of the greedy regex match `/\[[\s\S]*\]/` (first opening bracket
to last closing bracket after it). -/
def extractArray (cs : List Char) : Option (List Char) :=
  match cs.dropWhile (fun c => c != '[') with
  | [] => none
  | op :: rest =>
    match rest.reverse.findIdx? (fun c => c == ']') with
    | none => none
    | some k => some (op :: rest.take (rest.length - k))

/-- Fuel-driven model of the global regex replacement `/,\s*C/g → C` for a
closing character `C` (the trailing-comma repair rules). -/
def stripTrailingCommaF (close : Char) : ℕ → List Char → List Char
  | 0, cs => cs
  | _ + 1, [] => []
  | fuel + 1, c :: rest =>
    if c = ',' then
      match rest.dropWhile (fun x => jsWs x) with
      | d :: tail =>
        if d = close then close :: stripTrailingCommaF close fuel tail
        else c :: stripTrailingCommaF close fuel rest
      | [] => c :: stripTrailingCommaF close fuel rest
    else
      c :: stripTrailingCommaF close fuel rest

/-- Trailing-comma repair with inexhaustible fuel. -/
def stripTrailingComma (close : Char) (cs : List Char) : List Char :=
  stripTrailingCommaF close cs.length cs

/-- Numeric value of a list of decimal digit characters. -/
def digitsToNat (ds : List Char) : ℕ :=
  ds.foldl (fun acc c => acc * 10 + (c.toNat - '0'.toNat)) 0

/-- JSON whitespace (the four characters allowed between tokens by the
JSON grammar, as accepted by `JSON.parse`). -/
def jsonWs (c : Char) : Bool := c == ' ' || c == '\t' || c == '\n' || c == '\r'

/-- Skip JSON inter-token whitespace. -/
def skipJsonWs (cs : List Char) : List Char := cs.dropWhile jsonWs

/-- Hexadecimal digit test. -/
def isHexDigitChar (c : Char) : Bool :=
  c.isDigit || ('a' ≤ c && c ≤ 'f') || ('A' ≤ c && c ≤ 'F')

/-- Decode one string-escape sequence (the characters after a backslash);
returns the decoded character and the remaining input. -/
def decodeEscape : List Char → Option (Char × List Char)
  | '"' :: rest => some ('"', rest)
  | '\\' :: rest => some ('\\', rest)
  | '/' :: rest => some ('/', rest)
  | 'b' :: rest => some ('\x08', rest)
  | 'f' :: rest => some ('\x0c', rest)
  | 'n' :: rest => some ('\n', rest)
  | 'r' :: rest => some ('\r', rest)
  | 't' :: rest => some ('\t', rest)
  | 'u' :: h1 :: h2 :: h3 :: h4 :: rest =>
    if isHexDigitChar h1 && isHexDigitChar h2 && isHexDigitChar h3 && isHexDigitChar h4 then
      let v := [h1, h2, h3, h4].foldl (fun acc c =>
        acc * 16 + (if c.isDigit then c.toNat - '0'.toNat
                    else if 'a' ≤ c ∧ c ≤ 'f' then c.toNat - 'a'.toNat + 10
                    else c.toNat - 'A'.toNat + 10)) 0
      some (Char.ofNat v, rest)
    else none
  | _ => none

/-- Parse the body of a JSON string literal (the opening quote already
consumed); fuel-driven. -/
def parseJsonStringBody : ℕ → List Char → Option (List Char × List Char)
  | 0, _ => none
  | _ + 1, [] => none
  | fuel + 1, c :: rest =>
    if c = '"' then some ([], rest)
    else if c = '\\' then
      match decodeEscape rest with
      | some (d, rest2) =>
        match parseJsonStringBody fuel rest2 with
        | some (tail, rest3) => some (d :: tail, rest3)
        | none => none
      | none => none
    else
      match parseJsonStringBody fuel rest with
      | some (tail, rest2) => some (c :: tail, rest2)
      | none => none

/-- Parse a JSON number literal (strict JSON grammar: optional minus,
integer part without leading zeros, optional fraction, optional
exponent). -/
def parseJsonNumber (cs : List Char) : Option (ℚ × List Char) :=
  let (neg, cs1) : Bool × List Char :=
    match cs with
    | '-' :: t => (true, t)
    | _ => (false, cs)
  let intDigits := cs1.takeWhile Char.isDigit
  if intDigits.isEmpty then none
  else if intDigits.length > 1 && intDigits.headD '0' = '0' then none
  else
    let cs2 := cs1.drop intDigits.length
    let (fracDigits, cs3, ok1) : List Char × List Char × Bool :=
      match cs2 with
      | '.' :: t =>
        let fd := t.takeWhile Char.isDigit
        if fd.isEmpty then ([], cs2, false) else (fd, t.drop fd.length, true)
      | _ => ([], cs2, true)
    if !ok1 then none
    else
      let (expSign, expDigits, cs4, ok2) : Bool × List Char × List Char × Bool :=
        match cs3 with
        | e :: t =>
          if e = 'e' ∨ e = 'E' then
            let (esgn, t2) : Bool × List Char :=
              match t with
              | '-' :: t2 => (true, t2)
              | '+' :: t2 => (false, t2)
              | _ => (false, t)
            let ed := t2.takeWhile Char.isDigit
            if ed.isEmpty then (false, [], cs3, false)
            else (esgn, ed, t2.drop ed.length, true)
          else (false, [], cs3, true)
        | [] => (false, [], cs3, true)
      if !ok2 then none
      else
        let mantissa : ℕ := digitsToNat intDigits * 10 ^ fracDigits.length + digitsToNat fracDigits
        let expVal : ℕ := digitsToNat expDigits
        let numerator : ℤ :=
          (if neg then -(mantissa : ℤ) else (mantissa : ℤ)) *
            ((10 ^ (if expSign then 0 else expVal) : ℕ) : ℤ)
        let denominator : ℕ := 10 ^ (fracDigits.length + (if expSign then expVal else 0))
        some (mkRat numerator denominator, cs4)

mutual

/-- Fuel-driven recursive-descent parser for a JSON value, modelling strict
`JSON.parse` (no trailing commas, double-quoted strings only). -/
def parseJsonValue : ℕ → List Char → Option (Json × List Char)
  | 0, _ => none
  | fuel + 1, cs =>
    match skipJsonWs cs with
    | [] => none
    | c :: rest =>
      if c = 'n' then
        if ['u', 'l', 'l'].isPrefixOf rest then some (Json.null, rest.drop 3) else none
      else if c = 't' then
        if ['r', 'u', 'e'].isPrefixOf rest then some (Json.bool true, rest.drop 3) else none
      else if c = 'f' then
        if ['a', 'l', 's', 'e'].isPrefixOf rest then some (Json.bool false, rest.drop 4) else none
      else if c = '"' then
        match parseJsonStringBody (rest.length + 1) rest with
        | some (body, rest2) => some (Json.str (String.mk body), rest2)
        | none => none
      else if c = '[' then
        match skipJsonWs rest with
        | ']' :: rest2 => some (Json.arr [], rest2)
        | _ => match parseJsonItems fuel rest with
          | some (xs, rest2) => some (Json.arr xs, rest2)
          | none => none
      else if c = '\x7b' then
        match skipJsonWs rest with
        | '\x7d' :: rest2 => some (Json.obj [], rest2)
        | _ => match parseJsonMembers fuel rest with
          | some (kvs, rest2) => some (Json.obj kvs, rest2)
          | none => none
      else
        match parseJsonNumber (c :: rest) with
        | some (q, rest2) => some (Json.num q, rest2)
        | none => none

/-- Parse one-or-more comma-separated array items up to the closing
bracket. -/
def parseJsonItems : ℕ → List Char → Option (List Json × List Char)
  | 0, _ => none
  | fuel + 1, cs =>
    match parseJsonValue fuel cs with
    | none => none
    | some (x, rest) =>
      match skipJsonWs rest with
      | ',' :: rest2 =>
        match parseJsonItems fuel rest2 with
        | some (xs, rest3) => some (x :: xs, rest3)
        | none => none
      | ']' :: rest2 => some ([x], rest2)
      | _ => none

/-- Parse one-or-more comma-separated object members up to the closing
brace. -/
def parseJsonMembers : ℕ → List Char → Option (List (String × Json) × List Char)
  | 0, _ => none
  | fuel + 1, cs =>
    match skipJsonWs cs with
    | '"' :: rest =>
      match parseJsonStringBody (rest.length + 1) rest with
      | none => none
      | some (key, rest2) =>
        match skipJsonWs rest2 with
        | ':' :: rest3 =>
          match parseJsonValue fuel rest3 with
          | none => none
          | some (v, rest4) =>
            match skipJsonWs rest4 with
            | ',' :: rest5 =>
              match parseJsonMembers fuel rest5 with
              | some (kvs, rest6) => some ((String.mk key, v) :: kvs, rest6)
              | none => none
            | '\x7d' :: rest5 => some ([(String.mk key, v)], rest5)
            | _ => none
        | _ => none
    | _ => none

end

/-- Model of `JSON.parse` on a character list: parse one value and require
only whitespace to remain.  `none` models a thrown `SyntaxError`. -/
def jsonParse (cs : List Char) : Option Json :=
  match parseJsonValue (cs.length + 1) cs with
  | some (j, rest) => if (skipJsonWs rest).isEmpty then some j else none
  | none => none

/-! ## cacheService: confidence scoring and the enrichment cache -/

/-- Model of JavaScript `Math.round` (round half toward positive
infinity), via `Rat.floor`. -/
def jsRound (q : ℚ) : ℤ := (q + mkRat 1 2).floor

/-- Model of `Math.max`. -/
def jsMax (a b : ℚ) : ℚ := if a ≤ b then b else a

/-- Model of `Math.min`. -/
def jsMin (a b : ℚ) : ℚ := if b ≤ a then b else a

/-- The fixed required-field checklist of `calculateConfidenceScore`. -/
def requiredFields : List String :=
  ["name", "country", "city", "domain", "tuition_estimate", "acceptance_rate", "rank"]

/-- The per-field presence test of `calculateConfidenceScore`:
`enrichedData[field] && enrichedData[field] !== null &&
 enrichedData[field] !== '' && enrichedData[field] !== 0`. -/
def fieldPresent (enrichedData : Json) (field : String) : Bool :=
  match enrichedData.getField field with
  | none => false
  | some v =>
    jsTruthy v &&
      (match v with | .null => false | _ => true) &&
      (match v with | .str s => !(s == "") | _ => true) &&
      (match v with | .num q => !(q == 0) | _ => true)

/-- The source-reliability lookup table `sourceScores[source] || 0.5`. -/
def sourceScores (source : String) : ℚ :=
  if source = "VERIFIED" then 1
  else if source = "MANUAL" then mkRat 85 100
  else if source = "GEMINI" then mkRat 75 100
  else if source = "LLAMA" then mkRat 65 100
  else if source = "AI" then mkRat 70 100
  else mkRat 50 100

/-- Model of `calculateConfidenceScore(enrichedData, source, isVerified)`:
weighted sum of completeness (0.4), source reliability (0.3), verification
(0.2) and recency (0.1), rounded to two decimals and clamped to [0, 1]. -/
def calculateConfidenceScore (enrichedData : Json) (source : String)
    (isVerified : Bool) : ℚ :=
  let presentFields : ℕ := (requiredFields.filter (fun f => fieldPresent enrichedData f)).length
  let completeness : ℚ := mkRat presentFields requiredFields.length
  let sourceScore : ℚ := sourceScores source
  let verifiedScore : ℚ := if isVerified then 1 else 0
  let recencyScore : ℚ := 1
  let confidence : ℚ :=
    completeness * mkRat 4 10 + sourceScore * mkRat 3 10 +
      verifiedScore * mkRat 2 10 + recencyScore * mkRat 1 10
  jsMin 1 (jsMax 0 (mkRat (jsRound (confidence * 100)) 100))

/-- Row of the `enrichment_cache` table (UNIQUE(university_name, country)).
Timestamps are integer epoch milliseconds. -/
structure CacheRow where
  university_name : String
  country : String
  enriched_data : Json
  confidence_score : ℚ
  source : String
  created_at : ℤ
  last_accessed_at : ℤ
  access_count : ℕ
  is_verified : Bool
  deriving DecidableEq

/-- The `CACHE_TTL` tiers (milliseconds). -/
def CACHE_TTL_VERIFIED : ℤ := 30 * 24 * 60 * 60 * 1000

/-- Tier for plain AI-enriched records. -/
def CACHE_TTL_AI_ENRICHED : ℤ := 7 * 24 * 60 * 60 * 1000

/-- Tier for manually entered records. -/
def CACHE_TTL_MANUAL : ℤ := 14 * 24 * 60 * 60 * 1000

/-- The `_cache_meta` object attached to values returned by the cache
layer.  Fields absent in some code paths are `Option`-typed. -/
structure CacheMeta where
  cached : Bool
  confidence_score : ℚ
  source : String
  is_verified : Option Bool
  created_at : Option ℤ
  access_count : Option ℕ
  deriving DecidableEq

/-- A value returned by `getCachedEnrichment`/`enrichUniversity`: the
spread enrichment payload plus its `_cache_meta`. -/
structure CacheValue where
  data : Json
  meta : CacheMeta
  deriving DecidableEq

/-- Model of the Supabase `.eq(...).eq(...).single()` fetch: the unique row
matching both key columns, `none` on zero or multiple matches. -/
def findSingle (db : List CacheRow) (name country : String) : Option CacheRow :=
  match db.filter (fun r => r.university_name == name && r.country == country) with
  | [r] => some r
  | _ => none

/-- Model of `getCachedEnrichment(name, country)` at time `now`: trim the
key, fetch the row, miss if its age exceeds the TTL tier selected by
verification/source, otherwise return the stored payload with its stored
confidence score.  (The `updateCacheAccess` side effect only bumps access
statistics; it is reflected in the returned `access_count`.) -/
def getCachedEnrichment (db : List CacheRow) (now : ℤ) (name country : String) :
    Option CacheValue :=
  match findSingle db (jsTrim name) (jsTrim country) with
  | none => none
  | some data =>
    let ttl : ℤ :=
      if data.is_verified then CACHE_TTL_VERIFIED
      else if data.source = "MANUAL" then CACHE_TTL_MANUAL
      else CACHE_TTL_AI_ENRICHED
    let cacheAge : ℤ := now - data.created_at
    if cacheAge > ttl then none
    else some
      { data := data.enriched_data
        meta :=
          { cached := true
            confidence_score := data.confidence_score
            source := data.source
            is_verified := some data.is_verified
            created_at := some data.created_at
            access_count := some (data.access_count + 1) } }

/-- The row written by `setCachedEnrichment`: trimmed key, confidence
recomputed from the payload, source as given, fresh timestamps,
`access_count` 1, `is_verified` false. -/
def mkCacheEntry (now : ℤ) (name country : String) (enrichedData : Json)
    (source : String) : CacheRow :=
  { university_name := jsTrim name
    country := jsTrim country
    enriched_data := enrichedData
    confidence_score := calculateConfidenceScore enrichedData source false
    source := source
    created_at := now
    last_accessed_at := now
    access_count := 1
    is_verified := false }

/-- Key equality of two cache rows (the `onConflict` columns). -/
def sameKey (a b : CacheRow) : Bool :=
  a.university_name == b.university_name && a.country == b.country

/-- Model of the Supabase upsert with
`onConflict: 'university_name,country'`: replace the row with the same key
if one exists (the key is UNIQUE, so at most one row can match), otherwise
insert. -/
def upsertCache (db : List CacheRow) (e : CacheRow) : List CacheRow :=
  if db.any (fun r => sameKey r e) then db.map (fun r => if sameKey r e then e else r)
  else db ++ [e]

/-- Model of `setCachedEnrichment(name, country, enrichedData, source)` at
time `now`, returning the updated table. -/
def setCachedEnrichment (db : List CacheRow) (now : ℤ) (name country : String)
    (enrichedData : Json) (source : String) : List CacheRow :=
  upsertCache db (mkCacheEntry now name country enrichedData source)

/-- Model of `clearExpiredCache()` at time `now`: delete rows with
`is_verified = false` and `created_at` before `now - CACHE_TTL.VERIFIED`. -/
def clearExpiredCache (db : List CacheRow) (now : ℤ) : List CacheRow :=
  db.filter (fun r => !(r.is_verified == false && decide (r.created_at < now - CACHE_TTL_VERIFIED)))

/-! ## aiService: provider clients, the LLM router, and `enrichUniversity`

The outbound HTTP request of one attempt (one model, one key) is abstracted
by an oracle returning `some text` (the generated text) or `none` (any
request error, timeout included).  Key shuffling is abstracted by an
arbitrary reordering function.  Everything after the attempt — empty-text
check, fence stripping, JSON extraction and parsing, response shaping — is
transcribed from the source. -/

/-- Provider tags, for recording which providers a router call attempted. -/
inductive ProviderTag where
  | GEMINI
  | GROQ
  deriving DecidableEq

/-- Response shaping of one successful Gemini attempt: strip markdown
fences, extract the first-to-last-brace substring, parse it, and tag the
result; fall back to a `{text, actions}` wrapper when no JSON object can be
extracted or parsing throws. -/
def processGeminiText (text : String) (modelName : String) : Json :=
  let cleanedText := trimChars (stripFence (stripJsonFence text.data))
  match extractObject cleanedText with
  | some sub =>
    match jsonParse sub with
    | some j => (j.setField "_aiSource" (.str "GEMINI")).setField "_model" (.str modelName)
    | none =>
      .obj [("text", .str text), ("actions", .arr []),
            ("_aiSource", .str "GEMINI"), ("_model", .str modelName)]
  | none =>
    .obj [("text", .str text), ("actions", .arr []),
          ("_aiSource", .str "GEMINI"), ("_model", .str modelName)]

/-- Model of `callGemini(messages, systemPrompt, preferredModel)`: iterate
the preferred model then its same-vendor fallback model; for each model,
iterate the (shuffled) key pool; an empty generated text counts as a failed
attempt.  `none` models the final `throw lastError` after exhausting all
keys and models (also thrown when no key is configured). -/
def callGemini (keys : List String) (shuffle : List String → List String)
    (attempt : String → String → Option String) (preferredModel : Option String) : Option Json :=
  let pm := preferredModel.getD "gemini-2.5-flash"
  if keys.isEmpty then none
  else
    let fallbackModel := if pm = "gemini-2.5-flash" then "gemini-2.5-flash-lite" else "gemini-2.5-flash"
    [pm, fallbackModel].findSome? (fun modelName =>
      (shuffle keys).findSome? (fun apiKey =>
        match attempt modelName apiKey with
        | none => none
        | some text => if text = "" then none else some (processGeminiText text modelName)))

/-- The `text`-defaulting step of `callGroq`: a parsed object with no
truthy `text` receives a canned text (one message when it carries
`actions`, another otherwise). -/
def ensureGroqText (j : Json) : Json :=
  if !(fieldTruthy j "text") && fieldTruthy j "actions" then
    j.setField "text" (.str "I\x27ve updated your profile.")
  else if !(fieldTruthy j "text") then
    j.setField "text" (.str "I heard you.")
  else j

/-- Response shaping of one successful Groq attempt. -/
def processGroqText (text : String) : Json :=
  let cleanedText := trimChars (stripFence (stripJsonFence text.data))
  match extractObject cleanedText with
  | some sub =>
    match jsonParse sub with
    | some j => (ensureGroqText j).setField "_aiSource" (.str "LLAMA")
    | none => .obj [("text", .str text), ("actions", .arr []), ("_aiSource", .str "LLAMA")]
  | none => .obj [("text", .str text), ("actions", .arr []), ("_aiSource", .str "LLAMA")]

/-- Model of `callGroq(messages, systemPrompt)`: a single model, iterating
the shuffled key pool; `none` models the final `throw lastError`. -/
def callGroq (keys : List String) (shuffle : List String → List String)
    (attempt : String → Option String) : Option Json :=
  if keys.isEmpty then none
  else
    (shuffle keys).findSome? (fun apiKey =>
      match attempt apiKey with
      | none => none
      | some text => some (processGroqText text))

/-- The `options` argument of `getLLMResponse`: either a legacy provider
string or an object with optional `provider` and `model` fields. -/
inductive LLMOptions where
  | str (s : String)
  | obj (provider : Option String) (model : Option String)

/-- Provider selection: `typeof options === 'string' ? options :
(options.provider || 'GROQ')`. -/
def optionsProvider : LLMOptions → String
  | .str s => s
  | .obj p _ =>
    match p with
    | some s => if s = "" then "GROQ" else s
    | none => "GROQ"

/-- Model selection: `typeof options === 'object' ? options.model :
'gemini-2.5-flash'` (an absent `options.model` hits the default parameter
of `callGemini`). -/
def optionsModel : LLMOptions → Option String
  | .str _ => some "gemini-2.5-flash"
  | .obj _ m => m

/-- The degraded response returned when both providers fail. -/
def unavailableResponse : Json :=
  .obj [("text", .str "I\x27m having trouble connecting to my AI services. Please check your connection."),
        ("error", .bool true)]

/-- Model of `getLLMResponse(messages, systemPrompt, options)`: try the
preferred provider; on its exhaustion try the other provider once; if both
fail return the degraded `unavailableResponse` (the function never
throws).  The second component records, in order, the providers attempted
by the call — it instruments the branch structure of the source and carries
no other information. -/
def getLLMResponse (geminiKeys groqKeys : List String)
    (shuffleG shuffleQ : List String → List String)
    (attemptGemini : String → String → Option String) (attemptGroq : String → Option String)
    (options : LLMOptions) : Json × List ProviderTag :=
  let provider := optionsProvider options
  let preferredModel := optionsModel options
  if provider = "GEMINI" then
    match callGemini geminiKeys shuffleG attemptGemini preferredModel with
    | some r => (r, [.GEMINI])
    | none =>
      match callGroq groqKeys shuffleQ attemptGroq with
      | some r => (r, [.GEMINI, .GROQ])
      | none => (unavailableResponse, [.GEMINI, .GROQ])
  else
    match callGroq groqKeys shuffleQ attemptGroq with
    | some r => (r, [.GROQ])
    | none =>
      match callGemini geminiKeys shuffleG attemptGemini preferredModel with
      | some r => (r, [.GROQ, .GEMINI])
      | none => (unavailableResponse, [.GROQ, .GEMINI])

/-- The enrichment-payload parse step of `enrichUniversity` applied to a
textual response: extract the first-to-last-brace substring of the raw
text, strict-parse it, on failure strip fences (no newline consumption
here) and trim, retry once, and on any remaining failure produce the tagged
`error` payload. -/
def parseEnrichText (name country : String) (s : String) : Json :=
  match extractObject s.data with
  | some sub =>
    match jsonParse sub with
    | some j => j
    | none =>
      let cleaned := trimChars (stripFenceNoNl (stripJsonFenceNoNl sub))
      match jsonParse cleaned with
      | some j => j
      | none => .obj [("name", .str name), ("country", .str country),
                      ("error", .str "Failed to parse AI response")]
  | none => .obj [("name", .str name), ("country", .str country),
                  ("error", .str "Failed to parse AI response")]

/-- The response-shape dispatch of `enrichUniversity`: use the response
directly when it already looks enriched, otherwise parse its text; `.error`
models a thrown runtime error (property access on `null`, or `.match` on a
truthy non-string `text`), which the surrounding `catch` turns into the
degraded return. -/
def enrichParse (name country : String) (response : Json) : Except Unit Json :=
  if fieldTruthy response "name" || fieldTruthy response "tuition_estimate" ||
      fieldTruthy response "city" then
    .ok response
  else
    match response with
    | .str s => .ok (parseEnrichText name country s)
    | .null => .error ()
    | _ =>
      match response.getField "text" with
      | some v =>
        if jsTruthy v then
          match v with
          | .str s => .ok (parseEnrichText name country s)
          | _ => .error ()
        else .ok response
      | none => .ok response

/-- Source tag extraction `response._aiSource || 'AI'` (the tag is always a
string in the modelled code, set by `callGemini`/`callGroq`). -/
def sourceOf (response : Json) : String :=
  match response.getField "_aiSource" with
  | some (.str s) => if s = "" then "AI" else s
  | _ => "AI"

/-- The cache-miss path of `enrichUniversity`: parse the (abstracted) LLM
response, store the payload through `setCachedEnrichment`, and return it
with a fresh non-cached `_cache_meta`; a thrown error yields the degraded
`Failed to enrich` value and leaves the cache unchanged. -/
def enrichUniversityFresh (db : List CacheRow) (now : ℤ) (name country : String)
    (response : Json) : CacheValue × List CacheRow :=
  match enrichParse name country response with
  | .error _ =>
    ({ data := .obj [("name", .str name), ("country", .str country),
                     ("error", .str "Failed to enrich")]
       meta := { cached := false, confidence_score := 0, source := "ERROR",
                 is_verified := none, created_at := none, access_count := none } }, db)
  | .ok enrichedData =>
    let source := sourceOf response
    let db' := setCachedEnrichment db now name country enrichedData source
    ({ data := enrichedData
       meta := { cached := false
                 confidence_score := calculateConfidenceScore enrichedData source false
                 source := source
                 is_verified := some false
                 created_at := some now
                 access_count := some 1 } }, db')

/-- Model of `enrichUniversity(name, country)` at time `now` with the LLM
response abstracted as `response`: serve the cache hit unless its payload
carries a truthy `error` field; otherwise (miss, or cached failure) run the
fresh enrichment path. -/
def enrichUniversity (db : List CacheRow) (now : ℤ) (name country : String)
    (response : Json) : CacheValue × List CacheRow :=
  match getCachedEnrichment db now name country with
  | some cached =>
    if !(fieldTruthy cached.data "error") then (cached, db)
    else enrichUniversityFresh db now name country response
  | none => enrichUniversityFresh db now name country response

/-! ## discoveryAnalysis: per-user analysis cache and response parsing -/

/-- The default analysis returned when the profile is missing or the AI
response is unusable (`getDefaultAnalysis()`). -/
def getDefaultAnalysis : Json :=
  .obj [
    ("profile_fit", .obj [
      ("reasons", .arr [.str "Complete your profile to see personalized insights"]),
      ("score", .num 50)]),
    ("budget_analysis", .obj [
      ("tuition", .num 0), ("user_budget", .num 0), ("within_budget", .bool true),
      ("gap", .num 0),
      ("recommendation", .str "Set your budget in profile to see cost analysis")]),
    ("country_preference", .obj [
      ("matches", .bool false),
      ("message", .str "Set country preferences to see matches")]),
    ("acceptance_score", .obj [
      ("percentage", .num 50), ("category", .str "TARGET"),
      ("reasoning", .str "Complete profile for accurate assessment")]),
    ("risk_level", .str "medium"),
    ("cost_level", .str "medium")]

/-- Model of `isValidAnalysis(analysis)`: the five required top-level
sections are truthy. -/
def isValidAnalysis (analysis : Json) : Bool :=
  jsTruthy analysis &&
    fieldTruthy analysis "profile_fit" &&
    fieldTruthy analysis "budget_analysis" &&
    fieldTruthy analysis "country_preference" &&
    fieldTruthy analysis "acceptance_score" &&
    fieldTruthy analysis "risk_level"

/-- Model of `isStale(analyzedAt)` at time `now` (7-day TTL). -/
def isStale (now analyzedAt : ℤ) : Bool :=
  decide (now - analyzedAt > 7 * 24 * 60 * 60 * 1000)

/-- Index read `j?.[0]` (array head, or property "0" of an object). -/
def jIndex0 : Json → Option Json
  | .arr (x :: _) => some x
  | .obj kvs => (kvs.find? (fun p => p.1 == "0")).map (fun p => p.2)
  | _ => none

/-- Model of the placeholder test
`cached?.analysis?.profile_fit?.reasons?.[0]?.includes('Complete your profile')`.
A truthy non-string first reason would throw in the source (caught by the
surrounding handler); such values do not occur in stored analyses, which
are parsed JSON or `getDefaultAnalysis`. -/
def isGenericAnalysis (analysis : Json) : Bool :=
  match analysis.getField "profile_fit" with
  | some pf =>
    match pf.getField "reasons" with
    | some rs =>
      match jIndex0 rs with
      | some (.str r) => jsIncludes r "Complete your profile"
      | _ => false
    | none => false
  | none => false

/-- A row of `user_university_analyses` as seen by the cache check. -/
structure StoredAnalysis where
  analysis : Json
  analyzed_at : ℤ
  deriving DecidableEq

/-- The cache-serving decision of `analyzeUniversityForDiscovery` (steps
1–2): a cached analysis is served iff it exists, is not stale, is
structurally valid, and is not a placeholder being shown to a user who now
has a profile; `none` means the function falls through to recomputation. -/
def discoveryServeCache (hasProfile : Bool) (cached : Option StoredAnalysis) (now : ℤ) :
    Option Json :=
  let isGenericCache :=
    match cached with
    | some c => isGenericAnalysis c.analysis
    | none => false
  let shouldIgnoreCache := hasProfile && isGenericCache
  match cached with
  | some c =>
    if !isStale now c.analyzed_at && isValidAnalysis c.analysis && !shouldIgnoreCache then
      some c.analysis
    else none
  | none => none

/-- The text-parsing pipeline of `analyzeUniversityForDiscovery` step 6:
strip fences, trim, extract the first-to-last-brace substring, strict
parse, and on failure retry once after removing trailing commas before
closing braces/brackets.  `none` models the thrown error that the
surrounding handler converts into `getDefaultAnalysis()`. -/
def parseDiscoveryText (text : String) : Option Json :=
  let cleanedText := trimChars (stripFence (stripJsonFence text.data))
  match extractObject cleanedText with
  | some sub =>
    match jsonParse sub with
    | some j => some j
    | none =>
      let furtherCleaned := trimChars (stripTrailingComma ']' (stripTrailingComma '\x7d' sub))
      jsonParse furtherCleaned
  | none => none

/-- The response-parsing step of `analyzeUniversityForDiscovery`: an object
already carrying analysis sections is used directly; a string (or an
object with truthy string `text`) is parsed from text; `none` models every
path on which the source throws and falls back to `getDefaultAnalysis()`. -/
def parseDiscoveryResponse (response : Json) : Option Json :=
  if jsTruthy response &&
      (match response with | .obj _ => true | .arr _ => true | _ => false) &&
      (fieldTruthy response "profile_fit" || fieldTruthy response "budget_analysis") then
    some response
  else
    match response with
    | .str s => parseDiscoveryText s
    | .null => none
    | _ =>
      match response.getField "text" with
      | some v =>
        if jsTruthy v then
          match v with
          | .str s => parseDiscoveryText s
          | _ => none
        else some response
      | none => some response

/-- The value the discovery analyzer actually proceeds with after the
parse step: the parsed analysis, or `getDefaultAnalysis()` on a handled
parse failure. -/
def parseDiscoveryOrDefault (response : Json) : Json :=
  (parseDiscoveryResponse response).getD getDefaultAnalysis

/-! ## Batch fan-out: `batchAnalyzeUniversities` and the search-time batch
enrichment of `searchUniversities` -/

/-- Whether a model-returned array element carries exactly the 1-based
index `n` (the strict comparison `a.index === n`). -/
def hasIndex (a : Json) (n : ℕ) : Bool :=
  match a.getField "index" with
  | some (.num q) => q == (n : ℚ)
  | _ => false

/-- Removal of the `index` field before storing
(`const {index, ...analysis} = aiAnalysis`); the parsed batch arrays only
contain objects. -/
def stripIndexField (a : Json) : Json :=
  match a with
  | .obj kvs => .obj (kvs.filter (fun p => p.1 != "index"))
  | j => j

/-- The fan-out step of `batchAnalyzeUniversities` (step 7): one analysis
per fetched university, keyed by id, taking the array element whose
`index` equals the 1-based position of the university and falling back to
`getDefaultAnalysis()` when no element matches. -/
def mapBatchAnalyses (uniIds : List String) (analysisArray : List Json) :
    List (String × Json) :=
  uniIds.enum.map (fun p =>
    match analysisArray.find? (fun a => hasIndex a (p.1 + 1)) with
    | some a => (p.2, stripIndexField a)
    | none => (p.2, getDefaultAnalysis))

/-- Model of `getDefaultTuitionByCountry(country)`. -/
def getDefaultTuitionByCountry (country : String) : ℚ :=
  if country = "United Kingdom" then 25000
  else if country = "Canada" then 20000
  else if country = "Australia" then 28000
  else if country = "Germany" then 1500
  else if country = "France" then 3000
  else if country = "Netherlands" then 12000
  else if country = "Singapore" then 15000
  else if country = "Ireland" then 18000
  else if country = "New Zealand" then 22000
  else if country = "Switzerland" then 1500
  else if country = "Sweden" then 0
  else if country = "Norway" then 0
  else if country = "Denmark" then 0
  else if country = "Finland" then 0
  else if country = "Spain" then 4000
  else if country = "Italy" then 4000
  else if country = "India" then 5000
  else if country = "China" then 8000
  else if country = "Japan" then 12000
  else if country = "South Korea" then 10000
  else if country = "Brazil" then 3000
  else if country = "Mexico" then 4000
  else 15000

/-- Model of `parseFloat` on an already-cleaned character list (optional
sign, digits with optional decimal point, optional well-formed exponent;
`none` models `NaN`). -/
def parseFloatChars (cs : List Char) : Option ℚ :=
  let (neg, cs1) : Bool × List Char :=
    match cs with
    | '-' :: t => (true, t)
    | '+' :: t => (false, t)
    | _ => (false, cs)
  let intDigits := cs1.takeWhile Char.isDigit
  let cs2 := cs1.drop intDigits.length
  let (fracDigits, cs3) : List Char × List Char :=
    match cs2 with
    | '.' :: t => (t.takeWhile Char.isDigit, t.drop (t.takeWhile Char.isDigit).length)
    | _ => ([], cs2)
  if intDigits.isEmpty && fracDigits.isEmpty then none
  else
    let (expSign, expDigits) : Bool × List Char :=
      match cs3 with
      | e :: t =>
        if e = 'e' ∨ e = 'E' then
          match t with
          | '-' :: t2 => (true, t2.takeWhile Char.isDigit)
          | '+' :: t2 => (false, t2.takeWhile Char.isDigit)
          | _ => (false, t.takeWhile Char.isDigit)
        else (false, [])
      | [] => (false, [])
    let mantissa : ℕ := digitsToNat intDigits * 10 ^ fracDigits.length + digitsToNat fracDigits
    let expVal : ℕ := digitsToNat expDigits
    let numerator : ℤ :=
      (if neg then -(mantissa : ℤ) else (mantissa : ℤ)) *
        ((10 ^ (if expSign then 0 else expVal) : ℕ) : ℤ)
    let denominator : ℕ := 10 ^ (fracDigits.length + (if expSign then expVal else 0))
    some (mkRat numerator denominator)

/-- Model of `parseNumberOrNull(value)` from `universityEnrichment`:
numbers pass through, `null`/`undefined` give `null`, strings are cleaned
of `~`, `,` and whitespace then `parseFloat`-ed (`null` on `NaN`), every
other type gives `null`. -/
def parseNumberOrNull (v : Option Json) : Option ℚ :=
  match v with
  | none => none
  | some .null => none
  | some (.num q) => some q
  | some (.str s) =>
    parseFloatChars (s.data.filter (fun c => !(c == '~' || c == ',' || jsWs c)))
  | some _ => none

/-- The numeric triple extracted from one model-returned enrichment array
element. -/
structure EnrichFields where
  tuition_estimate : Option ℚ
  acceptance_rate : Option ℚ
  ranking : Option ℚ
  deriving DecidableEq

/-- Conversion of one array element into the stored enrichment triple. -/
def toEnrichFields (item : Json) : EnrichFields :=
  { tuition_estimate := parseNumberOrNull (item.getField "tuition_estimate")
    acceptance_rate := parseNumberOrNull (item.getField "acceptance_rate")
    ranking := parseNumberOrNull (item.getField "ranking") }

/-- The index-keyed map built by `batchEnrichUniversitiesWithSingleCall`:
an element contributes under key `index - 1` when its `index` is a truthy
number; on duplicate indices the later element wins (object assignment in
a forEach). -/
def buildEnrichmentMap (items : List Json) (arrayIndex : ℕ) : Option EnrichFields :=
  ((items.filter (fun it =>
      match it.getField "index" with
      | some (.num q) => !(q == 0) && q == ((arrayIndex : ℚ) + 1)
      | _ => false)).getLast?).map toEnrichFields

/-- Fence-strip, trim, bracket-extract and parse the batch response text;
the extracted substring parses to an array when it parses at all. -/
def batchEnrichTextItems (s : String) : List Json :=
  match extractArray (trimChars (stripFence (stripJsonFence s.data))) with
  | some sub =>
    match jsonParse sub with
    | some (.arr xs) => xs
    | _ => []
  | none => []

/-- The array recovered from the batch-enrichment LLM response: a
ready-made array is used as is; otherwise the array is extracted and
parsed from the response text; every failing path yields the empty map
(modelled as the empty list). -/
def batchEnrichItems (response : Json) : List Json :=
  match response with
  | .arr xs => xs
  | .str s => batchEnrichTextItems s
  | .null => []
  | _ =>
    match response.getField "text" with
    | some (.str s) => if s = "" then [] else batchEnrichTextItems s
    | _ => []

/-- The per-university record produced by the enrichment fan-out of
`searchUniversities` (the fields it assigns into the upsert row). -/
structure UniEnrichResult where
  tuition_estimate : ℚ
  acceptance_rate : ℚ
  rank : Option ℚ
  data_source : String
  deriving DecidableEq

/-- JavaScript `a || b` on an optional number. -/
def jsOrQ (v : Option ℚ) (d : ℚ) : ℚ :=
  match v with
  | some q => if q == 0 then d else q
  | none => d

/-- Truthiness of an optional number. -/
def truthyQ (v : Option ℚ) : Bool :=
  match v with
  | some q => !(q == 0)
  | none => false

/-- The country-based default record (`getDefaultTuitionByCountry`,
acceptance 50, no rank, source OTHER). -/
def defaultUniEnrich (country : String) : UniEnrichResult :=
  { tuition_estimate := getDefaultTuitionByCountry country
    acceptance_rate := 50
    rank := none
    data_source := "OTHER" }

/-- Outcome for one of the first 50 entities: model data is used when the
map has an entry with a truthy tuition or acceptance rate, the country
default otherwise. -/
def applyEnrichOutcome (country : String) (d : Option EnrichFields) : UniEnrichResult :=
  match d with
  | some e =>
    if truthyQ e.tuition_estimate || truthyQ e.acceptance_rate then
      { tuition_estimate := jsOrQ e.tuition_estimate (getDefaultTuitionByCountry country)
        acceptance_rate := jsOrQ e.acceptance_rate 50
        rank := (match e.ranking with | some q => if q == 0 then none else some q | none => none)
        data_source := "OTHER" }
    else defaultUniEnrich country
  | none => defaultUniEnrich country

/-- The non-US enrichment fan-out of `searchUniversities`: only the first
50 entities (`slice(0, 50)`) are sent to the model; each of them receives
either model data or the country default; every entity beyond the 50-cap
unconditionally receives the country default.  Entities are given as
(name, country) pairs; the first component of the result is the list
actually sent to the model. -/
def enrichNonUSUniversities (nonUS : List (String × String)) (response : Json) :
    List (String × String) × List UniEnrichResult :=
  let universitiesToEnrich := nonUS.take 50
  let items := batchEnrichItems response
  let outcomes := universitiesToEnrich.enum.map
    (fun p => applyEnrichOutcome p.2.2 (buildEnrichmentMap items p.1))
  let beyond := (nonUS.drop 50).map (fun u => defaultUniEnrich u.2)
  (universitiesToEnrich, outcomes ++ beyond)

/-! ## Supporting lemmas -/

theorem findSome?_none {α β : Type} (f : α → Option β) :
    ∀ (l : List α), (∀ x ∈ l, f x = none) → l.findSome? f = none := by
  intro l h
  induction l with
  | nil => rfl
  | cons a t ih =>
    rw [List.findSome?_cons, h a (List.mem_cons_self a t)]
    exact ih (fun x hx => h x (List.mem_cons_of_mem a hx))

theorem mkRat_cast (n : ℤ) (d : ℕ) : (mkRat n d : ℚ) = (n : ℚ) / (d : ℚ) := by
  rw [Rat.mkRat_eq_divInt, Rat.divInt_eq_div]
  norm_num

theorem ratFloor_eq_floor (q : ℚ) : q.floor = ⌊q⌋ := by
  rw [Rat.floor_def', Rat.floor_def]

theorem jsRound_floor (q : ℚ) : jsRound q = ⌊q + 1 / 2⌋ := by
  unfold jsRound
  rw [ratFloor_eq_floor, mkRat_cast]
  norm_num

theorem jsRound_mono {a b : ℚ} (h : a ≤ b) : jsRound a ≤ jsRound b := by
  rw [jsRound_floor, jsRound_floor]
  exact Int.floor_le_floor (by linarith)

theorem jsRound_intCast (n : ℤ) : jsRound (n : ℚ) = n := by
  rw [jsRound_floor, Int.floor_eq_iff]
  constructor <;> norm_num

/-! ## C9: the expiry sweep -/

/-- C9.  `clearExpiredCache` keeps exactly the rows that are verified or
whose age is at most the longest TTL tier (30 days): an unverified row
strictly older than that cutoff is deleted, every verified row and every
young-enough unverified row survives, nothing else changes (the result is a
sublist of the table), and the cutoff tier is the largest of the three
configured tiers. -/
theorem clearExpiredCache_sweep :
    ∀ (db : List CacheRow) (now : ℤ),
    (∀ r : CacheRow, r ∈ clearExpiredCache db now ↔
        r ∈ db ∧ (r.is_verified = true ∨ now - r.created_at ≤ CACHE_TTL_VERIFIED))
    ∧ List.Sublist (clearExpiredCache db now) db
    ∧ (∀ r ∈ db, r.is_verified = true → r ∈ clearExpiredCache db now)
    ∧ CACHE_TTL_VERIFIED = 30 * 24 * 60 * 60 * 1000
    ∧ CACHE_TTL_MANUAL ≤ CACHE_TTL_VERIFIED
    ∧ CACHE_TTL_AI_ENRICHED ≤ CACHE_TTL_VERIFIED := by
  intro db now
  have hpred : ∀ r : CacheRow,
      (!(r.is_verified == false && decide (r.created_at < now - CACHE_TTL_VERIFIED))) = true ↔
        (r.is_verified = true ∨ now - r.created_at ≤ CACHE_TTL_VERIFIED) := by
    intro r
    cases hv : r.is_verified
    · simp [hv]
      omega
    · simp [hv]
  have hmem : ∀ r : CacheRow, r ∈ clearExpiredCache db now ↔
      r ∈ db ∧ (r.is_verified = true ∨ now - r.created_at ≤ CACHE_TTL_VERIFIED) := by
    intro r
    unfold clearExpiredCache
    rw [List.mem_filter, hpred r]
  refine ⟨hmem, List.filter_sublist db, ?_, by decide, by decide, by decide⟩
  intro r hr hv
  exact (hmem r).mpr ⟨hr, Or.inl hv⟩

/-- Concrete instance for the sweep: a verified row written in the distant
past survives the sweep. -/
def sweepVerifiedRow : CacheRow :=
  { university_name := "Old U", country := "X", enriched_data := Json.obj []
    confidence_score := 1, source := "MANUAL", created_at := -9999999999999
    last_accessed_at := 0, access_count := 1, is_verified := true }

/-- Witness for C9 at a concrete table and row. -/
theorem clearExpiredCache_sweep_witness :
    sweepVerifiedRow ∈ ([sweepVerifiedRow] : List CacheRow)
    ∧ sweepVerifiedRow.is_verified = true
    ∧ sweepVerifiedRow ∈ clearExpiredCache [sweepVerifiedRow] 0 :=
  ⟨List.mem_cons_self _ _, rfl,
    (clearExpiredCache_sweep [sweepVerifiedRow] 0).2.2.1 sweepVerifiedRow
      (List.mem_cons_self _ _) rfl⟩

/-! ## C3: key normalization of the enrichment cache -/

/-- C3 counterexample.  The cache key is only whitespace-trimmed, not
case-folded: after storing under ("MIT", "USA"), a lookup under the same
key hits, but a lookup differing only in letter case misses, and a store
differing only in letter case creates a second row. -/
theorem enrichmentCache_no_case_folding :
    (getCachedEnrichment (setCachedEnrichment [] 0 "MIT" "USA" (Json.obj []) "AI")
        0 "MIT" "USA").isSome = true
    ∧ getCachedEnrichment (setCachedEnrichment [] 0 "MIT" "USA" (Json.obj []) "AI")
        0 "mit" "USA" = none
    ∧ (setCachedEnrichment (setCachedEnrichment [] 0 "MIT" "USA" (Json.obj []) "AI")
        0 "mit" "USA" (Json.obj []) "AI").length = 2 :=
  ⟨rfl, rfl, rfl⟩

/-- C3 amended.  `getCachedEnrichment` and `setCachedEnrichment` normalize
the (name, country) key by trimming leading/trailing whitespace only: two
key pairs with equal trims are interchangeable for both lookup and store
(while, per the counterexample, keys differing in letter case are not). -/
theorem enrichmentCache_trim_normalization :
    ∀ (db : List CacheRow) (now now2 : ℤ) (name country name2 country2 : String)
      (payload : Json) (source : String),
    jsTrim name2 = jsTrim name → jsTrim country2 = jsTrim country →
    getCachedEnrichment db now name2 country2 = getCachedEnrichment db now name country
    ∧ setCachedEnrichment db now2 name2 country2 payload source
        = setCachedEnrichment db now2 name country payload source := by
  intro db now now2 name country name2 country2 payload source h1 h2
  constructor
  · unfold getCachedEnrichment
    rw [h1, h2]
  · unfold setCachedEnrichment mkCacheEntry
    rw [h1, h2]

/-- Witness for the amended C3 at concrete whitespace-variant keys. -/
theorem enrichmentCache_trim_normalization_witness :
    jsTrim " MIT " = jsTrim "MIT"
    ∧ getCachedEnrichment [] 5 " MIT " " USA " = getCachedEnrichment [] 5 "MIT" "USA" :=
  ⟨rfl, (enrichmentCache_trim_normalization [] 5 0 "MIT" "USA" " MIT " " USA "
    (Json.obj []) "AI" rfl rfl).1⟩

/-! ## C4: a second store for the same key fully replaces the first -/

/-- Key uniqueness of the `enrichment_cache` table
(UNIQUE(university_name, country)). -/
def cacheKeysUnique (db : List CacheRow) : Prop :=
  (db.map (fun r => (r.university_name, r.country))).Nodup

theorem sameKey_iff (a b : CacheRow) :
    sameKey a b = true ↔ a.university_name = b.university_name ∧ a.country = b.country := by
  simp [sameKey]

theorem filter_sameKey_nil {e : CacheRow} :
    ∀ {l : List CacheRow}, (∀ x ∈ l, sameKey x e = false) → l.filter (fun r => sameKey r e) = [] := by
  intro l h
  induction l with
  | nil => rfl
  | cons a t ih =>
    rw [List.filter_cons, h a (List.mem_cons_self a t)]
    exact ih (fun x hx => h x (List.mem_cons_of_mem a hx))

theorem map_subst_id {e : CacheRow} :
    ∀ {l : List CacheRow}, (∀ x ∈ l, sameKey x e = false) →
      l.map (fun r => if sameKey r e then e else r) = l := by
  intro l h
  induction l with
  | nil => rfl
  | cons a t ih =>
    rw [List.map_cons, h a (List.mem_cons_self a t), if_neg (by simp), ih
      (fun x hx => h x (List.mem_cons_of_mem a hx))]

theorem upsertCache_filter :
    ∀ (db : List CacheRow) (e : CacheRow), cacheKeysUnique db →
      (upsertCache db e).filter (fun r => sameKey r e) = [e] := by
  intro db e h
  have hsee : sameKey e e = true := by simp [sameKey]
  unfold upsertCache
  by_cases hany : db.any (fun r => sameKey r e) = true
  · rw [if_pos hany]
    induction db with
    | nil => simp at hany
    | cons r rest ih =>
      have h3 : ((r :: rest).map (fun x => (x.university_name, x.country))).Nodup := h
      rw [List.map_cons, List.nodup_cons] at h3
      have hnotin := h3.1
      have hnd : cacheKeysUnique rest := h3.2
      by_cases hk : sameKey r e = true
      · -- the head row is replaced; no other row can share the key
        have hrest : ∀ x ∈ rest, sameKey x e = false := by
          intro x hx
          by_contra hxk
          rw [Bool.not_eq_false] at hxk
          have hxe := (sameKey_iff x e).mp hxk
          have hre := (sameKey_iff r e).mp hk
          exact hnotin (by
            refine List.mem_map.mpr ⟨x, hx, ?_⟩
            rw [hxe.1, hxe.2, hre.1, hre.2])
        rw [List.map_cons, if_pos hk, List.filter_cons, hsee]
        simp only [if_true]
        rw [map_subst_id hrest, filter_sameKey_nil hrest]
      · have hany2 : rest.any (fun r => sameKey r e) = true := by
          rcases List.any_eq_true.mp hany with ⟨x, hx, hxk⟩
          rcases List.mem_cons.mp hx with rfl | hx2
          · exact absurd hxk hk
          · exact List.any_eq_true.mpr ⟨x, hx2, hxk⟩
        rw [List.map_cons, if_neg hk, List.filter_cons]
        have hkf : sameKey r e = false := by
          cases hx : sameKey r e
          · rfl
          · exact absurd hx hk
        rw [hkf]
        simp only [Bool.false_eq_true, if_false]
        exact ih hnd hany2
  · rw [if_neg hany]
    have hall : ∀ x ∈ db, sameKey x e = false := by
      intro x hx
      cases hxk : sameKey x e
      · rfl
      · exact absurd (List.any_eq_true.mpr ⟨x, hx, hxk⟩) hany
    rw [List.filter_append, filter_sameKey_nil hall, List.filter_cons, hsee]
    simp

theorem upsertCache_keysUnique :
    ∀ (db : List CacheRow) (e : CacheRow), cacheKeysUnique db →
      cacheKeysUnique (upsertCache db e) := by
  intro db e h
  unfold upsertCache
  by_cases hany : db.any (fun r => sameKey r e) = true
  · rw [if_pos hany]
    have : (db.map (fun r => if sameKey r e then e else r)).map
        (fun r => (r.university_name, r.country))
        = db.map (fun r => (r.university_name, r.country)) := by
      rw [List.map_map]
      apply List.map_congr_left
      intro x _
      by_cases hk : sameKey x e = true
      · have := (sameKey_iff x e).mp hk
        simp [hk, this.1, this.2]
      · simp [hk]
    unfold cacheKeysUnique
    rw [this]
    exact h
  · rw [if_neg hany]
    unfold cacheKeysUnique
    rw [List.map_append]
    refine List.Nodup.append h (List.nodup_singleton _) ?_
    intro p hp hq
    simp only [List.map_cons, List.map_nil, List.mem_singleton] at hq
    rcases List.mem_map.mp hp with ⟨x, hx, rfl⟩
    have : sameKey x e = true := by
      rw [sameKey_iff]
      exact ⟨congrArg Prod.fst hq, congrArg Prod.snd hq⟩
    exact hany (List.any_eq_true.mpr ⟨x, hx, this⟩)

/-- C4.  Storing twice under the same (name, country) key leaves exactly
one row for that key, and that row is entirely the entry of the second write:
its payload is the second payload, its confidence score is recomputed by
`calculateConfidenceScore` from that payload, its verification flag is
false, and its access count is reset to 1. -/
theorem setCachedEnrichment_second_write_wins :
    ∀ (db : List CacheRow) (t1 t2 : ℤ) (name country : String) (p1 p2 : Json) (s1 s2 : String),
    cacheKeysUnique db →
    ((setCachedEnrichment (setCachedEnrichment db t1 name country p1 s1) t2 name country p2 s2).filter
        (fun r => sameKey r (mkCacheEntry t2 name country p2 s2))
      = [mkCacheEntry t2 name country p2 s2])
    ∧ (mkCacheEntry t2 name country p2 s2).enriched_data = p2
    ∧ (mkCacheEntry t2 name country p2 s2).confidence_score = calculateConfidenceScore p2 s2 false
    ∧ (mkCacheEntry t2 name country p2 s2).is_verified = false
    ∧ (mkCacheEntry t2 name country p2 s2).access_count = 1 := by
  intro db t1 t2 name country p1 p2 s1 s2 h
  refine ⟨?_, rfl, rfl, rfl, rfl⟩
  unfold setCachedEnrichment
  exact upsertCache_filter _ _ (upsertCache_keysUnique db _ h)

/-- Witness for C4 on the empty table. -/
theorem setCachedEnrichment_second_write_wins_witness :
    ((setCachedEnrichment (setCachedEnrichment [] 1 "A" "B" (Json.obj [("name", Json.str "x")]) "AI")
        2 "A" "B" (Json.obj []) "GEMINI").filter
        (fun r => sameKey r (mkCacheEntry 2 "A" "B" (Json.obj []) "GEMINI"))
      = [mkCacheEntry 2 "A" "B" (Json.obj []) "GEMINI"])
    ∧ (mkCacheEntry 2 "A" "B" (Json.obj []) "GEMINI").access_count = 1 := by
  have h := setCachedEnrichment_second_write_wins [] 1 2 "A" "B"
    (Json.obj [("name", Json.str "x")]) (Json.obj []) "AI" "GEMINI" (by simp [cacheKeysUnique])
  exact ⟨h.1, h.2.2.2.2⟩

/-! ## C5: TTL tiers of the enrichment-cache lookup -/

/-- C5.  For a cached record (the unique row matching the trimmed key),
the lookup misses exactly when the age of the record exceeds the TTL selected
by its tier — 30 days for verified records, otherwise 14 days for source
MANUAL, otherwise 7 days — and a record within its TTL is returned with its
stored payload and stored confidence score (not recomputed). -/
theorem getCachedEnrichment_ttl_tiers :
    ∀ (db : List CacheRow) (now : ℤ) (name country : String) (r : CacheRow),
    db.filter (fun x => x.university_name == jsTrim name && x.country == jsTrim country) = [r] →
    ((getCachedEnrichment db now name country = none ↔
        now - r.created_at >
          (if r.is_verified then 30 * 24 * 60 * 60 * 1000
           else if r.source = "MANUAL" then 14 * 24 * 60 * 60 * 1000
           else 7 * 24 * 60 * 60 * 1000))
      ∧ (∀ hit : CacheValue, getCachedEnrichment db now name country = some hit →
          hit.meta.confidence_score = r.confidence_score ∧ hit.data = r.enriched_data
            ∧ hit.meta.cached = true ∧ hit.meta.access_count = some (r.access_count + 1))) := by
  intro db now name country r hf
  have hfs : findSingle db (jsTrim name) (jsTrim country) = some r := by
    unfold findSingle
    rw [hf]
  have hval : getCachedEnrichment db now name country =
      (if now - r.created_at >
          (if r.is_verified then CACHE_TTL_VERIFIED
           else if r.source = "MANUAL" then CACHE_TTL_MANUAL
           else CACHE_TTL_AI_ENRICHED) then none
       else some
        { data := r.enriched_data
          meta :=
            { cached := true, confidence_score := r.confidence_score, source := r.source,
              is_verified := some r.is_verified, created_at := some r.created_at,
              access_count := some (r.access_count + 1) } }) := by
    unfold getCachedEnrichment
    rw [hfs]
  have httl : (if r.is_verified then CACHE_TTL_VERIFIED
      else if r.source = "MANUAL" then CACHE_TTL_MANUAL
      else CACHE_TTL_AI_ENRICHED)
      = (if r.is_verified then (30 * 24 * 60 * 60 * 1000 : ℤ)
         else if r.source = "MANUAL" then 14 * 24 * 60 * 60 * 1000
         else 7 * 24 * 60 * 60 * 1000) := by
    unfold CACHE_TTL_VERIFIED CACHE_TTL_MANUAL CACHE_TTL_AI_ENRICHED
    norm_num
  constructor
  · rw [hval, httl]
    by_cases hexp : now - r.created_at >
        (if r.is_verified then (30 * 24 * 60 * 60 * 1000 : ℤ)
         else if r.source = "MANUAL" then 14 * 24 * 60 * 60 * 1000
         else 7 * 24 * 60 * 60 * 1000)
    · rw [if_pos hexp]
      exact iff_of_true rfl hexp
    · rw [if_neg hexp]
      exact iff_of_false (by simp) hexp
  · intro hit hhit
    rw [hval] at hhit
    by_cases hexp : now - r.created_at >
        (if r.is_verified then CACHE_TTL_VERIFIED
         else if r.source = "MANUAL" then CACHE_TTL_MANUAL
         else CACHE_TTL_AI_ENRICHED)
    · rw [if_pos hexp] at hhit
      exact absurd hhit (by simp)
    · rw [if_neg hexp] at hhit
      have := Option.some.inj hhit
      rw [← this]
      exact ⟨rfl, rfl, rfl, rfl⟩

/-- Concrete fresh and expired rows for the C5 witness. -/
def ttlWitnessRow : CacheRow :=
  { university_name := "X", country := "Y", enriched_data := Json.obj []
    confidence_score := mkRat 1 2, source := "GEMINI", created_at := 0
    last_accessed_at := 0, access_count := 3, is_verified := false }

/-- Witness for C5: the unverified non-MANUAL row expires strictly after
7 days (miss at age 7 days + 1 ms, hit with the stored confidence at age
7 days exactly). -/
theorem getCachedEnrichment_ttl_tiers_witness :
    getCachedEnrichment [ttlWitnessRow] 604800001 "X" "Y" = none
    ∧ ∀ hit : CacheValue, getCachedEnrichment [ttlWitnessRow] 604800000 "X" "Y" = some hit →
        hit.meta.confidence_score = ttlWitnessRow.confidence_score := by
  constructor
  · exact (getCachedEnrichment_ttl_tiers [ttlWitnessRow] 604800001 "X" "Y" ttlWitnessRow
      rfl).1.mpr (by decide)
  · intro hit hh
    exact ((getCachedEnrichment_ttl_tiers [ttlWitnessRow] 604800000 "X" "Y" ttlWitnessRow
      rfl).2 hit hh).1

/-! ## C1: router degradation when both providers fail -/

theorem callGemini_exhausted :
    ∀ (keys : List String) (shuffle : List String → List String)
      (attempt : String → String → Option String) (pm : Option String),
    (∀ m k, attempt m k = none) → callGemini keys shuffle attempt pm = none := by
  intro keys shuffle attempt pm h
  unfold callGemini
  by_cases hk : keys.isEmpty
  · rw [if_pos hk]
  · rw [if_neg hk]
    apply findSome?_none
    intro m _
    apply findSome?_none
    intro k _
    rw [h m k]

theorem callGroq_exhausted :
    ∀ (keys : List String) (shuffle : List String → List String)
      (attempt : String → Option String),
    (∀ k, attempt k = none) → callGroq keys shuffle attempt = none := by
  intro keys shuffle attempt h
  unfold callGroq
  by_cases hk : keys.isEmpty
  · rw [if_pos hk]
  · rw [if_neg hk]
    apply findSome?_none
    intro k _
    rw [h k]

/-- C1.  For every option object and every outcome of the per-attempt
oracles: (a) one router call attempts at most two providers, each at most
once (the preferred one first, then the other); (b) when every attempt of
both providers fails — all keys and candidate models exhausted for each —
the router returns the degraded response, whose `text` field is a
non-empty string and whose `error` indicator is set, and records exactly
two distinct provider attempts, the preferred provider first and the other
one second.  The Lean model is a total function, so no exception can reach
the caller. -/
theorem getLLMResponse_degraded_on_double_failure :
    ∀ (geminiKeys groqKeys : List String) (shuffleG shuffleQ : List String → List String)
      (attemptGemini : String → String → Option String) (attemptGroq : String → Option String)
      (options : LLMOptions),
    ((getLLMResponse geminiKeys groqKeys shuffleG shuffleQ attemptGemini attemptGroq options).2.length ≤ 2
      ∧ (getLLMResponse geminiKeys groqKeys shuffleG shuffleQ attemptGemini attemptGroq options).2.Nodup)
    ∧ ((∀ m k, attemptGemini m k = none) → (∀ k, attemptGroq k = none) →
        (getLLMResponse geminiKeys groqKeys shuffleG shuffleQ attemptGemini attemptGroq options).1
          = unavailableResponse
        ∧ (∃ s : String,
            (getLLMResponse geminiKeys groqKeys shuffleG shuffleQ attemptGemini attemptGroq options).1.getField "text"
              = some (Json.str s) ∧ s ≠ "")
        ∧ (getLLMResponse geminiKeys groqKeys shuffleG shuffleQ attemptGemini attemptGroq options).1.getField "error"
            = some (Json.bool true)
        ∧ (getLLMResponse geminiKeys groqKeys shuffleG shuffleQ attemptGemini attemptGroq options).2.length = 2
        ∧ (getLLMResponse geminiKeys groqKeys shuffleG shuffleQ attemptGemini attemptGroq options).2.Nodup
        ∧ (getLLMResponse geminiKeys groqKeys shuffleG shuffleQ attemptGemini attemptGroq options).2
            = (if optionsProvider options = "GEMINI"
               then [ProviderTag.GEMINI, ProviderTag.GROQ]
               else [ProviderTag.GROQ, ProviderTag.GEMINI])) := by
  intro geminiKeys groqKeys shuffleG shuffleQ attemptGemini attemptGroq options
  constructor
  · unfold getLLMResponse
    by_cases hp : optionsProvider options = "GEMINI"
    · rw [if_pos hp]
      cases callGemini geminiKeys shuffleG attemptGemini (optionsModel options)
      · cases callGroq groqKeys shuffleQ attemptGroq
        · exact ⟨by simp, by simp⟩
        · exact ⟨by simp, by simp⟩
      · exact ⟨by simp, by simp⟩
    · rw [if_neg hp]
      cases callGroq groqKeys shuffleQ attemptGroq
      · cases callGemini geminiKeys shuffleG attemptGemini (optionsModel options)
        · exact ⟨by simp, by simp⟩
        · exact ⟨by simp, by simp⟩
      · exact ⟨by simp, by simp⟩
  · intro hG hQ
    have h1 := callGemini_exhausted geminiKeys shuffleG attemptGemini (optionsModel options) hG
    have h2 := callGroq_exhausted groqKeys shuffleQ attemptGroq hQ
    simp only [getLLMResponse]
    rw [h1, h2]
    by_cases hp : optionsProvider options = "GEMINI"
    · rw [if_pos hp]
      exact ⟨rfl, ⟨_, rfl, by decide⟩, rfl, rfl, by decide, by rw [if_pos hp]⟩
    · rw [if_neg hp]
      exact ⟨rfl, ⟨_, rfl, by decide⟩, rfl, rfl, by decide, by rw [if_neg hp]⟩

/-- Witness for C1 with one configured key per provider, identity
shuffling, and oracles on which every attempt fails. -/
theorem getLLMResponse_degraded_on_double_failure_witness :
    (getLLMResponse ["gk"] ["qk"] id id (fun _ _ => none) (fun _ => none)
        (LLMOptions.obj none none)).1 = unavailableResponse
    ∧ (getLLMResponse ["gk"] ["qk"] id id (fun _ _ => none) (fun _ => none)
        (LLMOptions.obj none none)).1.getField "error" = some (Json.bool true)
    ∧ (getLLMResponse ["gk"] ["qk"] id id (fun _ _ => none) (fun _ => none)
        (LLMOptions.obj none none)).2.length = 2 := by
  have h := (getLLMResponse_degraded_on_double_failure ["gk"] ["qk"] id id
    (fun _ _ => none) (fun _ => none) (LLMOptions.obj none none)).2
    (fun _ _ => rfl) (fun _ => rfl)
  exact ⟨h.1, h.2.2.1, h.2.2.2.1⟩

/-! ## C8: placeholder analyses are bypassed once a profile exists -/

/-- C8.  A cached discovery analysis whose first `profile_fit` reason
contains the placeholder sentinel is treated as a miss (the analyzer falls
through to recomputation) when the user has a profile, even though the
record is within its 7-day TTL and structurally complete — while for a user
without a profile the very same record is served. -/
theorem discoveryCache_placeholder_bypass :
    ∀ (c : StoredAnalysis) (now : ℤ),
    isStale now c.analyzed_at = false →
    isValidAnalysis c.analysis = true →
    isGenericAnalysis c.analysis = true →
    discoveryServeCache true (some c) now = none
    ∧ discoveryServeCache false (some c) now = some c.analysis := by
  intro c now h1 h2 h3
  constructor
  · simp [discoveryServeCache, h1, h2, h3]
  · simp [discoveryServeCache, h1, h2, h3]

/-- Witness for C8: the stored record is `getDefaultAnalysis` itself (it
is structurally complete and carries the sentinel) written at time 0 and
looked up at time 0. -/
theorem discoveryCache_placeholder_bypass_witness :
    discoveryServeCache true (some ⟨getDefaultAnalysis, 0⟩) 0 = none
    ∧ discoveryServeCache false (some ⟨getDefaultAnalysis, 0⟩) 0 = some getDefaultAnalysis :=
  discoveryCache_placeholder_bypass ⟨getDefaultAnalysis, 0⟩ 0 rfl rfl (by decide)

/-! ## C10: cached enrichment failures are never served -/

theorem enrichUniversityFresh_not_cached :
    ∀ (db : List CacheRow) (now : ℤ) (name country : String) (response : Json),
    (enrichUniversityFresh db now name country response).1.meta.cached = false := by
  intro db now name country response
  unfold enrichUniversityFresh
  cases enrichParse name country response <;> rfl

theorem enrichUniversity_cases :
    ∀ (db : List CacheRow) (now : ℤ) (name country : String) (response : Json),
    (∃ hit : CacheValue, getCachedEnrichment db now name country = some hit
        ∧ fieldTruthy hit.data "error" = false
        ∧ enrichUniversity db now name country response = (hit, db))
    ∨ ((∀ hit : CacheValue, getCachedEnrichment db now name country = some hit →
          fieldTruthy hit.data "error" = true)
        ∧ enrichUniversity db now name country response
            = enrichUniversityFresh db now name country response) := by
  intro db now name country response
  unfold enrichUniversity
  cases hc : getCachedEnrichment db now name country with
  | none => exact Or.inr ⟨by simp, rfl⟩
  | some hit =>
    by_cases herr : (!fieldTruthy hit.data "error") = true
    · exact Or.inl ⟨hit, rfl, by simpa using herr, by simp [herr]⟩
    · refine Or.inr ⟨?_, by simp [herr]⟩
      intro hit2 hh
      have : hit = hit2 := Option.some.inj hh
      subst this
      simpa using herr

/-- C10.  `enrichUniversity` never serves a cached failure: whenever the
cache lookup yields a record whose payload has a truthy `error` field, the
cached value is bypassed and the call proceeds exactly as the fresh
enrichment path (whose results are marked non-cached); consequently every
returned value whose `_cache_meta.cached` is true has no truthy `error`
field in its payload. -/
theorem enrichUniversity_no_cached_error :
    ∀ (db : List CacheRow) (now : ℤ) (name country : String) (response : Json),
    ((enrichUniversity db now name country response).1.meta.cached = true →
        fieldTruthy (enrichUniversity db now name country response).1.data "error" = false)
    ∧ (∀ hit : CacheValue, getCachedEnrichment db now name country = some hit →
        fieldTruthy hit.data "error" = true →
        enrichUniversity db now name country response
            = enrichUniversityFresh db now name country response
        ∧ (enrichUniversity db now name country response).1.meta.cached = false) := by
  intro db now name country response
  constructor
  · intro hcached
    rcases enrichUniversity_cases db now name country response with
      ⟨hit, _, herrF, heq⟩ | ⟨_, heq⟩
    · rw [heq]
      exact herrF
    · rw [heq] at hcached
      rw [enrichUniversityFresh_not_cached] at hcached
      exact absurd hcached (by simp)
  · intro hit hc herr
    rcases enrichUniversity_cases db now name country response with
      ⟨hit2, hc2, herrF, _⟩ | ⟨_, heq⟩
    · rw [hc] at hc2
      have : hit = hit2 := Option.some.inj hc2
      subst this
      rw [herr] at herrF
      exact absurd herrF (by simp)
    · exact ⟨heq, by rw [heq]; exact enrichUniversityFresh_not_cached db now name country response⟩

/-- A cache row holding a stored parse failure, for the C10 witness. -/
def cachedErrorRow : CacheRow :=
  { university_name := "ETH", country := "CH"
    enriched_data := Json.obj [("name", Json.str "ETH"), ("country", Json.str "CH"),
      ("error", Json.str "Failed to parse AI response")]
    confidence_score := mkRat 1 4, source := "GEMINI", created_at := 0
    last_accessed_at := 0, access_count := 1, is_verified := false }

/-- Witness for C10: with a fresh cached failure in the table, the call is
the fresh path and is marked non-cached. -/
theorem enrichUniversity_no_cached_error_witness :
    enrichUniversity [cachedErrorRow] 0 "ETH" "CH" (Json.str "no json")
        = enrichUniversityFresh [cachedErrorRow] 0 "ETH" "CH" (Json.str "no json")
    ∧ (enrichUniversity [cachedErrorRow] 0 "ETH" "CH" (Json.str "no json")).1.meta.cached = false :=
  (enrichUniversity_no_cached_error [cachedErrorRow] 0 "ETH" "CH" (Json.str "no json")).2
    { data := cachedErrorRow.enriched_data
      meta := { cached := true, confidence_score := cachedErrorRow.confidence_score,
                source := "GEMINI", is_verified := some false, created_at := some 0,
                access_count := some 2 } }
    rfl rfl

/-! ## C2: range and extremes of the confidence score -/

theorem calculateConfidenceScore_def :
    ∀ (payload : Json) (source : String) (isVerified : Bool),
    calculateConfidenceScore payload source isVerified
      = jsMin 1 (jsMax 0 (mkRat (jsRound
          ((mkRat ((requiredFields.filter (fun f => fieldPresent payload f)).length)
              requiredFields.length * mkRat 4 10
            + sourceScores source * mkRat 3 10
            + (if isVerified then (1 : ℚ) else 0) * mkRat 2 10
            + 1 * mkRat 1 10) * 100)) 100)) :=
  fun _ _ _ => rfl

theorem sourceScores_lower : ∀ source : String, (1 : ℚ) / 2 ≤ sourceScores source := by
  intro source
  unfold sourceScores
  split_ifs <;> norm_num [mkRat_cast]

theorem sourceScores_upper : ∀ source : String, sourceScores source ≤ 1 := by
  intro source
  unfold sourceScores
  split_ifs <;> norm_num [mkRat_cast]

theorem calculateConfidenceScore_form :
    ∀ (payload : Json) (source : String) (isVerified : Bool),
    ∃ k : ℤ, 25 ≤ k ∧ k ≤ 100 ∧
      calculateConfidenceScore payload source isVerified = (k : ℚ) / 100 := by
  intro payload source isVerified
  have hp7 : ((requiredFields.filter (fun f => fieldPresent payload f)).length) ≤ 7 := by
    have := List.length_filter_le (fun f => fieldPresent payload f) requiredFields
    simpa [requiredFields] using this
  set p : ℕ := (requiredFields.filter (fun f => fieldPresent payload f)).length with hpdef
  have hc0 : (0 : ℚ) ≤ mkRat p 7 := by
    rw [mkRat_cast]
    positivity
  have hc1 : mkRat p 7 ≤ 1 := by
    rw [mkRat_cast, div_le_one (by norm_num)]
    exact_mod_cast hp7
  have hs1 := sourceScores_lower source
  have hs2 := sourceScores_upper source
  have hv0 : (0 : ℚ) ≤ (if isVerified then (1 : ℚ) else 0) := by split_ifs <;> norm_num
  have hv1 : (if isVerified then (1 : ℚ) else 0) ≤ 1 := by split_ifs <;> norm_num
  set c : ℚ := mkRat p 7 with hcdef
  set s : ℚ := sourceScores source with hsdef
  set v : ℚ := (if isVerified then (1 : ℚ) else 0) with hvdef
  have hconf_lo : (1 : ℚ) / 4 ≤ c * mkRat 4 10 + s * mkRat 3 10 + v * mkRat 2 10 + 1 * mkRat 1 10 := by
    have h1 : (0 : ℚ) ≤ c * mkRat 4 10 := mul_nonneg hc0 (by norm_num [mkRat_cast])
    have h2 : (1 : ℚ) / 2 * mkRat 3 10 ≤ s * mkRat 3 10 :=
      mul_le_mul_of_nonneg_right hs1 (by norm_num [mkRat_cast])
    have h3 : (0 : ℚ) ≤ v * mkRat 2 10 := mul_nonneg hv0 (by norm_num [mkRat_cast])
    rw [mkRat_cast] at h2 ⊢
    push_cast at h2 ⊢
    nlinarith [h1, h2, h3]
  have hconf_hi : c * mkRat 4 10 + s * mkRat 3 10 + v * mkRat 2 10 + 1 * mkRat 1 10 ≤ 1 := by
    have h1 : c * mkRat 4 10 ≤ 1 * mkRat 4 10 :=
      mul_le_mul_of_nonneg_right hc1 (by norm_num [mkRat_cast])
    have h2 : s * mkRat 3 10 ≤ 1 * mkRat 3 10 :=
      mul_le_mul_of_nonneg_right hs2 (by norm_num [mkRat_cast])
    have h3 : v * mkRat 2 10 ≤ 1 * mkRat 2 10 :=
      mul_le_mul_of_nonneg_right hv1 (by norm_num [mkRat_cast])
    rw [mkRat_cast] at h1 h2 h3 ⊢
    push_cast at h1 h2 h3 ⊢
    nlinarith [h1, h2, h3]
  set conf : ℚ := c * mkRat 4 10 + s * mkRat 3 10 + v * mkRat 2 10 + 1 * mkRat 1 10 with hconfdef
  refine ⟨jsRound (conf * 100), ?_, ?_, ?_⟩
  · have : ((25 : ℤ) : ℚ) ≤ conf * 100 := by push_cast; linarith
    have h := jsRound_mono this
    rwa [jsRound_intCast] at h
  · have : conf * 100 ≤ ((100 : ℤ) : ℚ) := by push_cast; linarith
    have h := jsRound_mono this
    rwa [jsRound_intCast] at h
  · have h25 : (25 : ℤ) ≤ jsRound (conf * 100) := by
      have : ((25 : ℤ) : ℚ) ≤ conf * 100 := by push_cast; linarith
      have h := jsRound_mono this
      rwa [jsRound_intCast] at h
    have h100 : jsRound (conf * 100) ≤ 100 := by
      have : conf * 100 ≤ ((100 : ℤ) : ℚ) := by push_cast; linarith
      have h := jsRound_mono this
      rwa [jsRound_intCast] at h
    rw [calculateConfidenceScore_def payload source isVerified]
    have hreq : requiredFields.length = 7 := rfl
    rw [hreq]
    rw [← hpdef, ← hcdef, ← hsdef, ← hvdef, ← hconfdef]
    rw [mkRat_cast]
    push_cast
    have hx0 : (0 : ℚ) ≤ (jsRound (conf * 100) : ℚ) / 100 := by
      apply div_nonneg _ (by norm_num)
      exact_mod_cast le_trans (by norm_num) h25
    have hx1 : ((jsRound (conf * 100) : ℚ)) / 100 ≤ 1 := by
      rw [div_le_one (by norm_num)]
      exact_mod_cast h100
    unfold jsMax jsMin
    rw [if_pos hx0, if_pos hx1]

/-- C2.  The confidence score always lies in [0, 1] and is a two-decimal
value n/100; 0.25 is a global lower bound, attained by the empty payload
with any unrecognized source tag and verification false (hence that input
achieves the minimum over all inputs); and a payload with all seven
required checklist fields present, source MANUAL, verification true scores
at least 0.9 (it scores 0.96). -/
theorem calculateConfidenceScore_spec :
    ∀ (payload : Json) (source : String) (isVerified : Bool),
    (0 ≤ calculateConfidenceScore payload source isVerified
      ∧ calculateConfidenceScore payload source isVerified ≤ 1)
    ∧ (∃ n : ℕ, n ≤ 100 ∧ calculateConfidenceScore payload source isVerified = mkRat n 100)
    ∧ mkRat 25 100 ≤ calculateConfidenceScore payload source isVerified
    ∧ (source ∉ (["VERIFIED", "MANUAL", "GEMINI", "LLAMA", "AI"] : List String) →
        calculateConfidenceScore (Json.obj []) source false = mkRat 25 100)
    ∧ ((∀ f ∈ requiredFields, fieldPresent payload f = true) → source = "MANUAL" →
        isVerified = true → mkRat 9 10 ≤ calculateConfidenceScore payload source isVerified) := by
  intro payload source isVerified
  obtain ⟨k, h25, h100, hform⟩ := calculateConfidenceScore_form payload source isVerified
  have hb0 : (0 : ℚ) ≤ calculateConfidenceScore payload source isVerified := by
    rw [hform]
    apply div_nonneg _ (by norm_num)
    exact_mod_cast le_trans (by norm_num) h25
  have hb1 : calculateConfidenceScore payload source isVerified ≤ 1 := by
    rw [hform, div_le_one (by norm_num)]
    exact_mod_cast h100
  refine ⟨⟨hb0, hb1⟩, ?_, ?_, ?_, ?_⟩
  · refine ⟨k.toNat, by omega, ?_⟩
    rw [hform, mkRat_cast, Int.toNat_of_nonneg (show (0 : ℤ) ≤ k by omega)]
    norm_num
  · rw [hform, mkRat_cast]
    push_cast
    have hq : (25 : ℚ) ≤ (k : ℚ) := by exact_mod_cast h25
    rw [div_le_div_iff₀ (by norm_num) (by norm_num)]
    nlinarith [hq]
  · intro hsrc
    simp only [List.mem_cons, List.mem_singleton, not_or] at hsrc
    obtain ⟨n1, n2, n3, n4, n5⟩ := hsrc
    have hsrcval : sourceScores source = mkRat 50 100 := by
      unfold sourceScores
      rw [if_neg n1, if_neg n2, if_neg n3, if_neg n4, if_neg (by simpa using n5)]
    have hp0 : ((requiredFields.filter (fun f => fieldPresent (Json.obj []) f)).length) = 0 := rfl
    rw [calculateConfidenceScore_def (Json.obj []) source false, hp0, hsrcval]
    norm_num [mkRat_cast, jsMin, jsMax, jsRound_floor]
  · intro hall hmanual hver
    have hfilter : requiredFields.filter (fun f => fieldPresent payload f) = requiredFields := by
      rw [List.filter_eq_self]
      intro a ha
      rw [hall a ha]
    have hsrcval : sourceScores source = mkRat 85 100 := by
      rw [hmanual]
      rfl
    rw [calculateConfidenceScore_def payload source isVerified, hfilter, hsrcval, hver]
    norm_num [mkRat_cast, jsMin, jsMax, jsRound_floor, requiredFields]

/-- A payload with all seven required checklist fields present and
non-empty/non-zero. -/
def fullPayload : Json :=
  .obj [("name", .str "Example Institute"), ("country", .str "Testland"),
        ("city", .str "Testville"), ("domain", .str "example.edu"),
        ("tuition_estimate", .num 12000), ("acceptance_rate", .num 30),
        ("rank", .num 50)]

/-- Witness for C2 at a fully populated MANUAL+verified payload and at the
empty payload with the unrecognized source "WIKI". -/
theorem calculateConfidenceScore_spec_witness :
    (∀ f ∈ requiredFields, fieldPresent fullPayload f = true)
    ∧ "WIKI" ∉ (["VERIFIED", "MANUAL", "GEMINI", "LLAMA", "AI"] : List String)
    ∧ mkRat 9 10 ≤ calculateConfidenceScore fullPayload "MANUAL" true
    ∧ calculateConfidenceScore (Json.obj []) "WIKI" false = mkRat 25 100 :=
  ⟨by decide, by decide,
    (calculateConfidenceScore_spec fullPayload "MANUAL" true).2.2.2.2 (by decide) rfl rfl,
    (calculateConfidenceScore_spec (Json.obj []) "WIKI" false).2.2.2.1 (by decide)⟩

/-! ## C7: tolerance and tagged failure of the response parser -/

theorem mem_dropNl {c : Char} {l : List Char} (h : c ∈ dropNl l) : c ∈ l := by
  cases l with
  | nil => exact h
  | cons a t =>
    simp only [dropNl] at h
    by_cases ha : a = '\n'
    · rw [if_pos ha] at h
      exact List.mem_cons_of_mem _ h
    · rwa [if_neg ha] at h

theorem mem_stripTokF {t0 : Char} {ts : List Char} {e : Bool} :
    ∀ (fuel : ℕ) (cs : List Char) (c : Char), c ∈ stripTokF t0 ts e fuel cs → c ∈ cs := by
  intro fuel
  induction fuel with
  | zero =>
    intro cs c h
    exact h
  | succ n ih =>
    intro cs c h
    cases cs with
    | nil => exact h
    | cons a rest =>
      simp only [stripTokF] at h
      by_cases hp : (t0 :: ts).isPrefixOf (a :: rest) = true
      · rw [if_pos hp] at h
        have h2 := ih _ _ h
        have h3 : c ∈ (a :: rest).drop (t0 :: ts).length := by
          by_cases he : e
          · rw [he] at h2
            exact mem_dropNl (by simpa using h2)
          · have he2 : e = false := by
              cases e
              · rfl
              · exact absurd rfl he
            rw [he2] at h2
            simpa using h2
        exact (List.drop_sublist _ _).subset h3
      · rw [if_neg hp] at h
        rcases List.mem_cons.mp h with rfl | h2
        · exact List.mem_cons_self _ _
        · exact List.mem_cons_of_mem _ (ih _ _ h2)

theorem mem_stripTok {t0 : Char} {ts : List Char} {e : Bool} {cs : List Char} {c : Char}
    (h : c ∈ stripTok t0 ts e cs) : c ∈ cs :=
  mem_stripTokF _ _ _ h

theorem mem_trimChars {cs : List Char} {c : Char} (h : c ∈ trimChars cs) : c ∈ cs := by
  unfold trimChars at h
  rw [List.mem_reverse] at h
  have h2 := (List.dropWhile_sublist _).subset h
  rw [List.mem_reverse] at h2
  exact (List.dropWhile_sublist _).subset h2

theorem extractObject_none {cs : List Char} (h : '\x7b' ∉ cs) : extractObject cs = none := by
  unfold extractObject
  have hd : cs.dropWhile (fun c => c != '\x7b') = [] := by
    rw [List.dropWhile_eq_nil_iff]
    intro x hx
    simp only [bne_iff_ne, ne_eq, decide_eq_true_eq]
    intro heq
    exact h (heq ▸ hx)
  rw [hd]

theorem parseDiscoveryText_none {s : String} (h : '\x7b' ∉ s.data) :
    parseDiscoveryText s = none := by
  have hcl : '\x7b' ∉ trimChars (stripFence (stripJsonFence s.data)) := by
    intro hc
    exact h (mem_stripTok (mem_stripTok (mem_trimChars hc)))
  simp only [parseDiscoveryText]
  rw [extractObject_none hcl]

/-- C7.  The discovery response parser, given the fenced string
with a trailing comma, strips the markdown fences, repairs the trailing
comma on the retry parse, and returns the object with `a = 1`; given any
string containing no opening brace (non-JSON prose), it yields the tagged
failure (`none`, i.e. the handled thrown error), on which the caller
proceeds with `getDefaultAnalysis()` — the model is a total function, so no
exception propagates. -/
theorem responseParser_fence_and_prose :
    parseDiscoveryResponse (.str "```json\n\x7b\"a\":1,\x7d\n```") = some (.obj [("a", .num 1)])
    ∧ (∀ s : String, '\x7b' ∉ s.data →
        parseDiscoveryResponse (.str s) = none
        ∧ parseDiscoveryOrDefault (.str s) = getDefaultAnalysis) := by
  constructor
  · rfl
  · intro s h
    have hstr : parseDiscoveryResponse (.str s) = parseDiscoveryText s := by
      unfold parseDiscoveryResponse
      simp
    have h2 : parseDiscoveryResponse (.str s) = none := by
      rw [hstr, parseDiscoveryText_none h]
    refine ⟨h2, ?_⟩
    unfold parseDiscoveryOrDefault
    rw [h2]
    rfl

/-- Witness for C7 on a concrete brace-free prose string. -/
theorem responseParser_fence_and_prose_witness :
    parseDiscoveryResponse (.str "```json\n\x7b\"a\":1,\x7d\n```") = some (.obj [("a", .num 1)])
    ∧ parseDiscoveryResponse (.str "It was a sunny day.") = none
    ∧ parseDiscoveryOrDefault (.str "It was a sunny day.") = getDefaultAnalysis := by
  have h := responseParser_fence_and_prose
  have h2 := h.2 "It was a sunny day." (by decide)
  exact ⟨h.1, h2.1, h2.2⟩

/-! ## C6: batch fan-out never skips an entity -/

theorem filter_false_nil {α : Type} {p : α → Bool} :
    ∀ {l : List α}, (∀ x ∈ l, p x = false) → l.filter p = [] := by
  intro l h
  induction l with
  | nil => rfl
  | cons a t ih =>
    rw [List.filter_cons, h a (List.mem_cons_self a t)]
    exact ih (fun x hx => h x (List.mem_cons_of_mem a hx))

theorem buildEnrichmentMap_none {items : List Json} {i : ℕ}
    (h : ∀ it ∈ items, hasIndex it (i + 1) = false) : buildEnrichmentMap items i = none := by
  unfold buildEnrichmentMap
  have hf : items.filter (fun it =>
      match it.getField "index" with
      | some (.num q) => !(q == 0) && q == ((i : ℚ) + 1)
      | _ => false) = [] := by
    apply filter_false_nil
    intro it hit
    have h2 := h it hit
    unfold hasIndex at h2
    cases hg : it.getField "index" with
    | none => simp [hg]
    | some v =>
      cases v with
      | num q =>
        rw [hg] at h2
        simp only [Nat.cast_add, Nat.cast_one] at h2
        simp at h2
        simp [hg, h2]
      | null => simp [hg]
      | bool b => simp [hg]
      | str s => simp [hg]
      | arr xs => simp [hg]
      | obj kvs => simp [hg]
  rw [hf]
  rfl

/-- C6.  Batch fan-out produces exactly one record per input entity.
For `batchAnalyzeUniversities`: the analysis map has one entry per fetched
university, and a university whose 1-based index is absent from the
model-returned array (omitted index, or array shorter than the input)
receives `getDefaultAnalysis()` instead of being skipped.  For the
search-time batch enrichment: only the first 50 non-US entities are sent
to the model, the result still has one record per entity, every entity
beyond the 50-cap unconditionally receives the country-based default, and
an entity among the first 50 whose index is absent from the returned array
also receives the country-based default. -/
theorem batch_fanout_defaults :
    ∀ (uniIds : List String) (analysisArray : List Json)
      (nonUS : List (String × String)) (response : Json),
    (mapBatchAnalyses uniIds analysisArray).length = uniIds.length
    ∧ (∀ (i : ℕ) (id : String), uniIds[i]? = some id →
        (∀ a ∈ analysisArray, hasIndex a (i + 1) = false) →
        (mapBatchAnalyses uniIds analysisArray)[i]? = some (id, getDefaultAnalysis))
    ∧ (enrichNonUSUniversities nonUS response).1 = nonUS.take 50
    ∧ (enrichNonUSUniversities nonUS response).2.length = nonUS.length
    ∧ (∀ (i : ℕ) (u : String × String), 50 ≤ i → nonUS[i]? = some u →
        (enrichNonUSUniversities nonUS response).2[i]? = some (defaultUniEnrich u.2))
    ∧ (∀ (i : ℕ) (u : String × String), i < 50 → nonUS[i]? = some u →
        (∀ it ∈ batchEnrichItems response, hasIndex it (i + 1) = false) →
        (enrichNonUSUniversities nonUS response).2[i]? = some (defaultUniEnrich u.2)) := by
  intro uniIds analysisArray nonUS response
  refine ⟨?_, ?_, rfl, ?_, ?_, ?_⟩
  · simp [mapBatchAnalyses]
  · intro i id hid hnone
    have henum : uniIds.enum[i]? = some (i, id) := by
      rw [List.getElem?_enum, hid]
      rfl
    have hfind : analysisArray.find? (fun a => hasIndex a (i + 1)) = none := by
      rw [List.find?_eq_none]
      intro x hx
      rw [hnone x hx]
      simp
    unfold mapBatchAnalyses
    rw [List.getElem?_map, henum]
    simp [hfind]
  · simp only [enrichNonUSUniversities]
    rw [List.length_append, List.length_map, List.length_map, List.enum_length,
      List.length_take, List.length_drop]
    omega
  · intro i u h50 hu
    have hi : i < nonUS.length := by
      by_contra hni
      push_neg at hni
      rw [List.getElem?_eq_none hni] at hu
      exact Option.noConfusion hu
    simp only [enrichNonUSUniversities]
    rw [List.getElem?_append_right (by
      rw [List.length_map, List.enum_length, List.length_take]
      omega)]
    rw [List.length_map, List.enum_length, List.length_take]
    have hmin : min 50 nonUS.length = 50 := by omega
    rw [hmin, List.getElem?_map, List.getElem?_drop]
    have h5050 : 50 + (i - 50) = i := by omega
    rw [h5050, hu]
    rfl
  · intro i u h50 hu hnone
    have hi : i < nonUS.length := by
      by_contra hni
      push_neg at hni
      rw [List.getElem?_eq_none hni] at hu
      exact Option.noConfusion hu
    simp only [enrichNonUSUniversities]
    rw [List.getElem?_append, if_pos (by
      rw [List.length_map, List.enum_length, List.length_take]
      omega)]
    have htake : (nonUS.take 50)[i]? = some u := by
      rw [List.getElem?_take, if_pos h50]
      exact hu
    have henum : (nonUS.take 50).enum[i]? = some (i, u) := by
      rw [List.getElem?_enum, htake]
      rfl
    rw [List.getElem?_map, henum]
    have hmap := buildEnrichmentMap_none hnone
    simp [hmap, applyEnrichOutcome]

/-- The model-returned array for the C6 witness: two indexed results for a
batch of three universities. -/
def batchWitnessArr : List Json :=
  [.obj [("index", .num 1), ("risk_level", .str "low")],
   .obj [("index", .num 2), ("risk_level", .str "medium")]]

/-- Witness for C6: three entities, two indexed results — three records
are produced and the third is the default. -/
theorem batch_fanout_defaults_witness :
    (mapBatchAnalyses ["u1", "u2", "u3"] batchWitnessArr).length = 3
    ∧ (mapBatchAnalyses ["u1", "u2", "u3"] batchWitnessArr)[2]? = some ("u3", getDefaultAnalysis) := by
  have h := batch_fanout_defaults ["u1", "u2", "u3"] batchWitnessArr [] Json.null
  exact ⟨h.1, h.2.1 2 "u3" rfl (by decide)⟩
